import Mathlib

/-!
GoalBingoApp — verification of the board engine

Shallow embedding of the goal-bingo board engine of `src/src/App.tsx` and
its helper modules (`utils/goalKeys`, `types`, `components/BoardHistory`):
the data model, the Goal Key canonicalizer, the bingo-line evaluator, board
generation, the board-mutating handlers, the share codec and the import
handler, together with proofs of the specified properties.

Strings are Lean `String`s (lists of unicode scalar values); JavaScript
builtins (`trim`, `toLowerCase`) are modelled explicitly below.
-/

namespace GoalBingo

/-- Frequency enumeration from `types.ts`. -/
inductive Frequency where
  | daily
  | weekly
  | monthly
  | yearly
deriving DecidableEq, Repr

/-- `Subgoal` from `types.ts`: a checklist item nested under a goal. -/
structure Subgoal where
  id : String
  text : String
  done : Bool
deriving DecidableEq, Repr

/-- `GoalTemplate` from `types.ts`: a library entry (custom or suggested). -/
structure GoalTemplate where
  id : String
  text : String
  frequency : Frequency
  subgoals : Option (List Subgoal) := none
  dateCreated : Option String := none
deriving DecidableEq, Repr

/-- `Goal` from `types.ts`: a placed board cell. -/
structure Goal where
  id : String
  text : String
  frequency : Frequency
  completed : Bool
  sourceGoalId : Option String := none
  subgoals : Option (List Subgoal) := none
deriving DecidableEq, Repr

/-- `Board` from `types.ts`. -/
structure Board where
  id : String
  title : String
  createdAt : String
  goals : List Goal
  size : Nat
  celebrated : Bool
deriving DecidableEq, Repr

/-- The serialized string of a `Frequency` value. -/
def Frequency.toText : Frequency → String
  | .daily => "daily"
  | .weekly => "weekly"
  | .monthly => "monthly"
  | .yearly => "yearly"

/-! ## Goal Key (`src/utils/goalKeys.ts`) -/

/-- JavaScript `String.prototype.trim` whitespace set: ASCII whitespace,
NBSP, BOM, and the Unicode space separators. -/
def isJsWhitespace (c : Char) : Bool :=
  let n := c.toNat
  n == 9 || n == 10 || n == 11 || n == 12 || n == 13 || n == 32 ||
  n == 160 || n == 0xFEFF || n == 0x1680 ||
  (0x2000 ≤ n && n ≤ 0x200A) || n == 0x2028 || n == 0x2029 ||
  n == 0x202F || n == 0x205F || n == 0x3000

/-- Model of JavaScript `String.prototype.trim`: strip leading and trailing
whitespace. -/
def jsTrim (s : String) : String :=
  ⟨((s.data.dropWhile isJsWhitespace).reverse.dropWhile isJsWhitespace).reverse⟩

/-- Model of JavaScript `String.prototype.toLowerCase` on the ASCII range
(the only range the repository's catalog and tests exercise); code points
outside A–Z are left unchanged. -/
def jsToLowerChar (c : Char) : Char :=
  if 65 ≤ c.toNat ∧ c.toNat ≤ 90 then Char.ofNat (c.toNat + 32) else c

/-- Character-wise lowercase, as `toLowerCase` acts on the modelled range. -/
def jsToLower (s : String) : String :=
  ⟨s.data.map jsToLowerChar⟩

/-- `getGoalKey` from `src/utils/goalKeys.ts`:
frequency + ":" + lowercase(trim(text)). -/
def getGoalKey (frequency : Frequency) (text : String) : String :=
  frequency.toText ++ ":" ++ jsToLower (jsTrim text)

/-! ## Bingo Line Evaluator (`App.tsx`, `getBingoLines` / `getBingoLine`) -/

/-- `getBingoLines` from `App.tsx`: all row, column and diagonal index
lines of an `size × size` row-major grid, rows first, then columns, then
the main diagonal `i*(size+1)` and the anti-diagonal `(i+1)*(size-1)`. -/
def getBingoLines (size : Nat) : List (List Nat) :=
  ((List.range size).map fun row =>
    (List.range size).map fun col => row * size + col) ++
  ((List.range size).map fun col =>
    (List.range size).map fun row => row * size + col) ++
  [(List.range size).map fun idx => idx * (size + 1),
   (List.range size).map fun idx => (idx + 1) * (size - 1)]

/-- The truthiness test `goals[index]?.completed` from `getBingoLine`:
out-of-range indices read as not completed. -/
def cellCompleted (goals : List Goal) (index : Nat) : Bool :=
  ((goals.get? index).map Goal.completed).getD false

/-- A line is complete when every cell index reads completed. -/
def lineComplete (goals : List Goal) (line : List Nat) : Bool :=
  line.all (cellCompleted goals)

/-- `getBingoLine` from `App.tsx`: the first fully-completed line, if any. -/
def getBingoLine (goals : List Goal) (size : Nat) : Option (List Nat) :=
  (getBingoLines size).find? (lineComplete goals)

/-- `hasBingo` from `App.tsx`. -/
def hasBingo (goals : List Goal) (size : Nat) : Bool :=
  (getBingoLine goals size).isSome

/-! ## Board Generator (`App.tsx`, `handleGenerateBoard`) -/

/-- `defaultBoardSizeByFrequency` from `constants.ts`. -/
def defaultBoardSizeByFrequency : Frequency → Nat
  | .daily => 3
  | .weekly => 3
  | .monthly => 4
  | .yearly => 5

/-- `isBoardSize` from `App.tsx`. -/
def isBoardSize (value : Nat) : Bool :=
  value == 3 || value == 4 || value == 5

/-- `handleGenerateBoard` from `App.tsx`. `shuffledCustom` and
`shuffledSuggested` stand for `shuffle(customChecked)` and
`shuffle(suggestedChecked)`: `shuffle` returns an arbitrary permutation of
its input, so properties quantify over all permutations of the checked
pools. `ids` supplies the fresh placement ids of `safeRandomId`, and `now`
the `new Date().toISOString()` timestamp. -/
def handleGenerateBoard (ids : Nat → String) (now : String)
    (customGoals : List GoalTemplate) (generationFrequency : Frequency)
    (boardSize : Nat) (boardTitle : String) (customOnly : Bool)
    (shuffledCustom shuffledSuggested : List GoalTemplate) : Board :=
  let safeSize := if isBoardSize boardSize then boardSize
    else defaultBoardSizeByFrequency generationFrequency
  let totalTiles := safeSize * safeSize
  let trimmedCustom := shuffledCustom.take totalTiles
  let selected := trimmedCustom ++
    (if customOnly = false ∧ trimmedCustom.length < totalTiles then
      shuffledSuggested.take (totalTiles - trimmedCustom.length)
    else [])
  let placed := selected.enum.map fun p =>
    ({ id := ids p.1, text := p.2.text, frequency := p.2.frequency,
       completed := false,
       sourceGoalId :=
         if customGoals.any fun custom => custom.id == p.2.id then some p.2.id
         else none } : Goal)
  let goals := placed ++ (List.range (totalTiles - placed.length)).map fun i =>
    ({ id := ids (selected.length + i), text := "",
       frequency := generationFrequency, completed := false,
       sourceGoalId := none } : Goal)
  { id := ids totalTiles,
    title := if jsTrim boardTitle = "" then "Goal Bingo" else jsTrim boardTitle,
    createdAt := now,
    goals := goals,
    size := safeSize,
    celebrated := false }

/-! ## Board mutators (`App.tsx`) -/

/-- `SubgoalModalState` from `types.ts`. -/
structure SubgoalModalState where
  goalId : String
  subgoals : List Subgoal
  saveToLibrary : Bool
deriving DecidableEq, Repr

/-- The per-goal body of `toggleGoal` from `App.tsx`: a goal with a
non-empty subgoal list gets every subgoal's `done` and its own `completed`
set to `shouldComplete = !(all subgoals done)`; any other matching goal
just has `completed` negated. -/
def toggleGoalEntry (goalId : String) (goal : Goal) : Goal :=
  if goal.id ≠ goalId then goal
  else
    match goal.subgoals with
    | some subs =>
        if subs.length > 0 then
          let shouldComplete := !(subs.all Subgoal.done)
          { goal with
            subgoals := some (subs.map fun s => { s with done := shouldComplete }),
            completed := shouldComplete }
        else { goal with completed := !goal.completed }
    | none => { goal with completed := !goal.completed }

/-- `toggleGoal` from `App.tsx` as the updater applied to the current
board by `updateCurrentBoard`. -/
def toggleGoal (goalId : String) (current : Board) : Board :=
  { current with goals := current.goals.map (toggleGoalEntry goalId) }

/-- `handleResetProgress` from `App.tsx`: clear every goal's `completed`
flag and the board's `celebrated` flag (subgoal `done` flags are left
untouched). -/
def handleResetProgress (current : Board) : Board :=
  { current with
    goals := current.goals.map fun goal => { goal with completed := false },
    celebrated := false }

/-- `handleSaveSubgoals` from `App.tsx`: trim subgoal texts, drop empties,
fall back to two fresh default subgoals when fewer than two remain, and
store the list on the target goal with `completed = (all done)`. -/
def handleSaveSubgoals (ids : Nat → String) (modal : SubgoalModalState)
    (current : Board) : Board :=
  let cleaned := (modal.subgoals.map fun s => { s with text := jsTrim s.text }).filter
    fun s => s.text ≠ ""
  let finalList :=
    if cleaned.length ≥ 2 then cleaned
    else [{ id := ids 0, text := "Subgoal 1", done := false },
          { id := ids 1, text := "Subgoal 2", done := false }]
  let allDone := finalList.all Subgoal.done
  { current with
    goals := current.goals.map fun goal =>
      if goal.id = modal.goalId then
        { goal with subgoals := some finalList, completed := allDone }
      else goal }

/-- `updateCurrentBoard` from `App.tsx` at the store level: replace the
current board (found by id) by its updated image; no-op when no board is
selected. -/
def updateCurrentBoard (boards : List Board) (currentBoardId : Option String)
    (updater : Board → Board) : List Board :=
  match (currentBoardId.bind fun cid => boards.find? fun b => b.id == cid) with
  | none => boards
  | some board => boards.map fun item => if item.id == board.id then updater item else item

/-- The Goal invariant of the spec's data model: when `subgoals` is present
and non-empty, `completed` equals the conjunction of the subgoals' `done`
flags. -/
def goalInvariant (goal : Goal) : Bool :=
  match goal.subgoals with
  | some subs => subs.isEmpty || (goal.completed == subs.all Subgoal.done)
  | none => true

/-- The invariant over every goal of a board. -/
def boardInvariant (board : Board) : Bool :=
  board.goals.all goalInvariant

/-! ## JSON values

JavaScript JSON values as produced by `JSON.parse` / consumed by
`JSON.stringify`, restricted to the value fragment this application
serializes (numbers are the non-negative integers the data model uses). -/

/-- A JSON value. -/
inductive Json where
  | null
  | bool (b : Bool)
  | num (n : Nat)
  | str (s : String)
  | arr (items : List Json)
  | obj (fields : List (String × Json))

/-- JavaScript truthiness of a JSON value (`!parsed` in the import guard). -/
def jsTruthy : Json → Bool
  | .null => false
  | .bool b => b
  | .num n => n != 0
  | .str s => s != ""
  | .arr _ => true
  | .obj _ => true

/-- `typeof parsed === 'object'` for a JSON value: objects, arrays and
`null` are of type object. -/
def jsTypeofObject : Json → Bool
  | .null => true
  | .arr _ => true
  | .obj _ => true
  | _ => false

/-- JavaScript property access `value.key` on a JSON value: defined only
on objects (arrays and primitives have no such own property; `null` is
never dereferenced here because `!parsed` short-circuits first). -/
def jsGetField (value : Json) (key : String) : Option Json :=
  match value with
  | .obj fields => (fields.find? fun f => f.1 == key).map fun f => f.2
  | _ => none

/-- `Array.isArray` applied to a possibly-absent property value. -/
def jsIsArray : Option Json → Bool
  | some (.arr _) => true
  | _ => false

/-! ## Import handler (`components/BoardHistory.tsx`) -/

/-- The import guard of `BoardHistory`:
`!parsed || typeof parsed !== 'object' || !Array.isArray(parsed.boards)`
throws, so the payload is accepted exactly when it is truthy, of type
object and its `boards` property is an array. -/
def importPayloadValid (parsed : Json) : Bool :=
  jsTruthy parsed && jsTypeofObject parsed &&
    jsIsArray (jsGetField parsed "boards")

/-- The user-visible state the import flow touches: the store (abstract —
the `onImportData` callback owns its shape) and the import message/error
banner. -/
structure ImportOutcome (σ : Type) where
  store : σ
  importMessage : Option String
  importError : Bool
deriving Repr

/-- The `onChange` handler of the import file input in `BoardHistory`:
parse result in, validated payload handed to `onImportData` on success;
on a parse failure or an invalid shape the store is untouched and the
failure message is shown. -/
def handleImportFile (σ : Type) (onImportData : σ → Json → σ) (store : σ)
    (parseResult : Option Json) : ImportOutcome σ :=
  match parseResult with
  | some parsed =>
      if importPayloadValid parsed then
        { store := onImportData store parsed,
          importMessage := some "Import complete.",
          importError := false }
      else
        { store := store,
          importMessage := some "Import failed. Please use a valid export file.",
          importError := true }
  | none =>
      { store := store,
        importMessage := some "Import failed. Please use a valid export file.",
        importError := true }

/-! ## Share Codec: text layers (JSON, percent-encoding, base64) -/

def isDigit (c : Char) : Bool :=
  48 ≤ c.toNat && c.toNat ≤ 57

def natPrint (n : Nat) : List Char :=
  if h : n < 10 then [Char.ofNat (48 + n)]
  else natPrint (n / 10) ++ [Char.ofNat (48 + n % 10)]
decreasing_by exact Nat.div_lt_self (by omega) (by omega)

def digitVal (c : Char) : Nat := c.toNat - 48

def digitsVal (l : List Char) : Nat :=
  l.foldl (fun acc c => acc * 10 + digitVal c) 0

def parseNum (l : List Char) : Option (Nat × List Char) :=
  let ds := l.takeWhile isDigit
  if ds.isEmpty then none
  else some (digitsVal ds, l.dropWhile isDigit)

/-- Lowercase hexadecimal digit, as `Number::toString(16)` prints it. -/
def hexDigitLower (n : Nat) : Char :=
  if n < 10 then Char.ofNat (48 + n) else Char.ofNat (87 + n)

/-- One character of `JSON.stringify` string quoting: `"` and `\` get a
backslash escape, the five short control escapes apply, any other control
character becomes `\u00XX`, anything else is emitted literally. -/
def escChar (c : Char) : List Char :=
  if c.toNat = 34 then ['\\', '"']
  else if c.toNat = 92 then ['\\', '\\']
  else if c.toNat = 8 then ['\\', 'b']
  else if c.toNat = 9 then ['\\', 't']
  else if c.toNat = 10 then ['\\', 'n']
  else if c.toNat = 12 then ['\\', 'f']
  else if c.toNat = 13 then ['\\', 'r']
  else if c.toNat < 32 then
    ['\\', 'u', '0', '0', hexDigitLower (c.toNat / 16), hexDigitLower (c.toNat % 16)]
  else [c]

/-- `JSON.stringify` quoting of a whole string (without the delimiters). -/
def escString (s : String) : List Char :=
  s.data.flatMap escChar

/-- Hexadecimal digit value (`JSON.parse` accepts both cases). -/
def hexVal (c : Char) : Option Nat :=
  if 48 ≤ c.toNat ∧ c.toNat ≤ 57 then some (c.toNat - 48)
  else if 65 ≤ c.toNat ∧ c.toNat ≤ 70 then some (c.toNat - 55)
  else if 97 ≤ c.toNat ∧ c.toNat ≤ 102 then some (c.toNat - 87)
  else none

/-- Single-character JSON string escapes. -/
def escDecode (e : Char) : Option Char :=
  if e.toNat = 34 then some '"'
  else if e.toNat = 92 then some '\\'
  else if e.toNat = 47 then some '/'
  else if e.toNat = 98 then some (Char.ofNat 8)
  else if e.toNat = 102 then some (Char.ofNat 12)
  else if e.toNat = 110 then some (Char.ofNat 10)
  else if e.toNat = 114 then some (Char.ofNat 13)
  else if e.toNat = 116 then some (Char.ofNat 9)
  else none

/-- Parse a JSON string body up to and consuming the closing quote. -/
def parseStringBody : List Char → Option (String × List Char)
  | [] => none
  | c :: rest =>
    if c.toNat = 34 then some (String.mk [], rest)
    else if c.toNat = 92 then
      match rest with
      | [] => none
      | e :: rest2 =>
          if e.toNat = 117 then
            match rest2 with
            | h1 :: h2 :: h3 :: h4 :: rest3 =>
                match hexVal h1, hexVal h2, hexVal h3, hexVal h4 with
                | some v1, some v2, some v3, some v4 =>
                    (parseStringBody rest3).map fun p =>
                      (String.mk (Char.ofNat (v1 * 4096 + v2 * 256 + v3 * 16 + v4) :: p.1.data), p.2)
                | _, _, _, _ => none
            | _ => none
          else
            match escDecode e with
            | some d =>
                (parseStringBody rest2).map fun p => (String.mk (d :: p.1.data), p.2)
            | none => none
    else (parseStringBody rest).map fun p => (String.mk (c :: p.1.data), p.2)
termination_by l => l.length
decreasing_by all_goals simp_wf <;> omega

mutual

/-- `JSON.stringify` with no space argument: compact output. -/
def stringify : Json → List Char
  | .null => "null".data
  | .bool true => "true".data
  | .bool false => "false".data
  | .num n => natPrint n
  | .str s => Char.ofNat 34 :: escString s ++ [Char.ofNat 34]
  | .arr [] => [Char.ofNat 91, Char.ofNat 93]
  | .arr (x :: xs) =>
      Char.ofNat 91 :: stringify x ++ stringifyItemsRest xs ++ [Char.ofNat 93]
  | .obj [] => [Char.ofNat 123, Char.ofNat 125]
  | .obj (f :: fs) =>
      Char.ofNat 123 :: stringifyField f ++ stringifyFieldsRest fs ++ [Char.ofNat 125]

def stringifyField : String × Json → List Char
  | (k, v) => Char.ofNat 34 :: escString k ++ Char.ofNat 34 :: Char.ofNat 58 :: stringify v

def stringifyItemsRest : List Json → List Char
  | [] => []
  | x :: xs => Char.ofNat 44 :: stringify x ++ stringifyItemsRest xs

def stringifyFieldsRest : List (String × Json) → List Char
  | [] => []
  | f :: fs => Char.ofNat 44 :: stringifyField f ++ stringifyFieldsRest fs

end

mutual

def jsize : Json → Nat
  | .arr items => 1 + jsizeItems items
  | .obj fields => 1 + jsizeFields fields
  | _ => 1

def jsizeItems : List Json → Nat
  | [] => 0
  | x :: xs => 1 + jsize x + jsizeItems xs

def jsizeFields : List (String × Json) → Nat
  | [] => 0
  | f :: fs => 1 + jsize f.2 + jsizeFields fs

end

def isJsonWs (c : Char) : Bool :=
  c.toNat = 32 || c.toNat = 9 || c.toNat = 10 || c.toNat = 13

def skipWs (l : List Char) : List Char :=
  l.dropWhile isJsonWs

mutual

/-- `JSON.parse` (value grammar of the fragment the app serializes:
null, booleans, non-negative integers, strings, arrays, objects). -/
def parseValue : Nat → List Char → Option (Json × List Char)
  | 0, _ => none
  | fuel + 1, l =>
    match skipWs l with
    | [] => none
    | c :: r =>
      if c.toNat = 110 then
        match r with
        | u :: l1 :: l2 :: r2 =>
            if u.toNat = 117 ∧ l1.toNat = 108 ∧ l2.toNat = 108 then
              some (.null, r2)
            else none
        | _ => none
      else if c.toNat = 116 then
        match r with
        | a :: b :: d :: r2 =>
            if a.toNat = 114 ∧ b.toNat = 117 ∧ d.toNat = 101 then
              some (.bool true, r2)
            else none
        | _ => none
      else if c.toNat = 102 then
        match r with
        | a :: b :: d :: e :: r2 =>
            if a.toNat = 97 ∧ b.toNat = 108 ∧ d.toNat = 115 ∧ e.toNat = 101 then
              some (.bool false, r2)
            else none
        | _ => none
      else if c.toNat = 34 then
        (parseStringBody r).map fun p => (.str p.1, p.2)
      else if c.toNat = 91 then
        match skipWs r with
        | [] => none
        | d :: r2 =>
            if d.toNat = 93 then some (.arr [], r2)
            else (parseItems fuel (d :: r2)).map fun p => (.arr p.1, p.2)
      else if c.toNat = 123 then
        match skipWs r with
        | [] => none
        | d :: r2 =>
            if d.toNat = 125 then some (.obj [], r2)
            else (parseFields fuel (d :: r2)).map fun p => (.obj p.1, p.2)
      else if isDigit c then
        (parseNum (c :: r)).map fun p => (.num p.1, p.2)
      else none

/-- Comma-separated values of a non-empty array, up to and consuming the
closing bracket. -/
def parseItems : Nat → List Char → Option (List Json × List Char)
  | 0, _ => none
  | fuel + 1, l =>
    (parseValue fuel l).bind fun p =>
      match skipWs p.2 with
      | [] => none
      | c :: r2 =>
          if c.toNat = 44 then
            (parseItems fuel r2).map fun q => (p.1 :: q.1, q.2)
          else if c.toNat = 93 then some ([p.1], r2)
          else none

/-- Comma-separated members of a non-empty object, up to and consuming the
closing brace. -/
def parseFields : Nat → List Char → Option (List (String × Json) × List Char)
  | 0, _ => none
  | fuel + 1, l =>
    match skipWs l with
    | [] => none
    | c :: r =>
        if c.toNat = 34 then
          (parseStringBody r).bind fun pk =>
            match skipWs pk.2 with
            | [] => none
            | d :: r3 =>
                if d.toNat = 58 then
                  (parseValue fuel r3).bind fun pv =>
                    match skipWs pv.2 with
                    | [] => none
                    | e :: r5 =>
                        if e.toNat = 44 then
                          (parseFields fuel r5).map fun q =>
                            ((pk.1, pv.1) :: q.1, q.2)
                        else if e.toNat = 125 then some ([(pk.1, pv.1)], r5)
                        else none
                else none
        else none

end

/-- `JSON.parse` on a whole input: one value, only whitespace around it. -/
def jsonParse (s : String) : Option Json :=
  match parseValue (s.length + 1) s.data with
  | some p => if skipWs p.2 = [] then some p.1 else none
  | none => none

/-- `JSON.stringify` at the string level. -/
def jsonStringify (j : Json) : String := String.mk (stringify j)

/-- Characters `encodeURIComponent` leaves unescaped: alphanumerics and
`- _ . ! ~ * ' ( )`. -/
def isUnreserved (c : Char) : Bool :=
  (48 ≤ c.toNat && c.toNat ≤ 57) || (65 ≤ c.toNat && c.toNat ≤ 90) ||
  (97 ≤ c.toNat && c.toNat ≤ 122) ||
  c.toNat == 45 || c.toNat == 95 || c.toNat == 46 || c.toNat == 33 ||
  c.toNat == 126 || c.toNat == 42 || c.toNat == 39 || c.toNat == 40 ||
  c.toNat == 41

/-- UTF-8 encoding of one scalar value. -/
def utf8Bytes (c : Char) : List Nat :=
  if c.toNat < 128 then [c.toNat]
  else if c.toNat < 2048 then [192 + c.toNat / 64, 128 + c.toNat % 64]
  else if c.toNat < 65536 then
    [224 + c.toNat / 4096, 128 + c.toNat / 64 % 64, 128 + c.toNat % 64]
  else
    [240 + c.toNat / 262144, 128 + c.toNat / 4096 % 64, 128 + c.toNat / 64 % 64,
     128 + c.toNat % 64]

/-- Uppercase hexadecimal digit, as `encodeURIComponent` prints. -/
def hexDigitUpper (n : Nat) : Char :=
  if n < 10 then Char.ofNat (48 + n) else Char.ofNat (55 + n)

/-- A `%XX` escape. -/
def percentByte (b : Nat) : List Char :=
  [Char.ofNat 37, hexDigitUpper (b / 16), hexDigitUpper (b % 16)]

/-- `encodeURIComponent`. -/
def encodeURIComponent (s : String) : String :=
  String.mk (s.data.flatMap fun c =>
    if isUnreserved c then [c] else (utf8Bytes c).flatMap percentByte)

/-- Read one `%XX` escape from the head of the input. -/
def readEscByte : List Char → Option (Nat × List Char)
  | p :: h1 :: h2 :: rest =>
      if p.toNat = 37 then
        (hexVal h1).bind fun v1 => (hexVal h2).bind fun v2 =>
          some (v1 * 16 + v2, rest)
      else none
  | _ => none

/-- Decode one escape sequence (a UTF-8 byte sequence written as
consecutive `%XX` escapes) from the head of the input. -/
def decodeEscape (l : List Char) : Option (Char × List Char) :=
  (readEscByte l).bind fun p1 =>
    if p1.1 < 128 then some (Char.ofNat p1.1, p1.2)
    else if p1.1 < 192 then none
    else if p1.1 < 224 then
      (readEscByte p1.2).bind fun p2 =>
        if 128 ≤ p2.1 ∧ p2.1 < 192 then
          some (Char.ofNat ((p1.1 - 192) * 64 + (p2.1 - 128)), p2.2)
        else none
    else if p1.1 < 240 then
      (readEscByte p1.2).bind fun p2 =>
      (readEscByte p2.2).bind fun p3 =>
        if 128 ≤ p2.1 ∧ p2.1 < 192 ∧ 128 ≤ p3.1 ∧ p3.1 < 192 then
          some (Char.ofNat ((p1.1 - 224) * 4096 + (p2.1 - 128) * 64 +
            (p3.1 - 128)), p3.2)
        else none
    else if p1.1 < 248 then
      (readEscByte p1.2).bind fun p2 =>
      (readEscByte p2.2).bind fun p3 =>
      (readEscByte p3.2).bind fun p4 =>
        if 128 ≤ p2.1 ∧ p2.1 < 192 ∧ 128 ≤ p3.1 ∧ p3.1 < 192 ∧
            128 ≤ p4.1 ∧ p4.1 < 192 then
          some (Char.ofNat ((p1.1 - 240) * 262144 + (p2.1 - 128) * 4096 +
            (p3.1 - 128) * 64 + (p4.1 - 128)), p4.2)
        else none
    else none

/-- The decoding loop of `decodeURIComponent`: unescaped characters pass
through, a `%` starts an escape sequence. The fuel only bounds the
recursion; one source character is produced per step, so `input.length`
steps always suffice. -/
def percentDecodeLoop : Nat → List Char → Option (List Char)
  | _, [] => some []
  | 0, _ :: _ => none
  | fuel + 1, c :: rest =>
    if c.toNat = 37 then
      (decodeEscape (c :: rest)).bind fun p =>
        (percentDecodeLoop fuel p.2).map fun l => p.1 :: l
    else (percentDecodeLoop fuel rest).map fun l => c :: l

/-- `decodeURIComponent`. -/
def decodeURIComponent (s : String) : Option String :=
  (percentDecodeLoop s.length s.data).map String.mk

/-- The encoding of one character under `encodeURIComponent`. -/
def encChar (c : Char) : List Char :=
  if isUnreserved c then [c] else (utf8Bytes c).flatMap percentByte

/-- The base64 alphabet. -/
def b64char (n : Nat) : Char :=
  if n < 26 then Char.ofNat (65 + n)
  else if n < 52 then Char.ofNat (97 + (n - 26))
  else if n < 62 then Char.ofNat (48 + (n - 52))
  else if n = 62 then Char.ofNat 43
  else Char.ofNat 47

/-- Value of a base64 alphabet character. -/
def b64charVal (c : Char) : Option Nat :=
  if 65 ≤ c.toNat ∧ c.toNat ≤ 90 then some (c.toNat - 65)
  else if 97 ≤ c.toNat ∧ c.toNat ≤ 122 then some (c.toNat - 97 + 26)
  else if 48 ≤ c.toNat ∧ c.toNat ≤ 57 then some (c.toNat - 48 + 52)
  else if c.toNat = 43 then some 62
  else if c.toNat = 47 then some 63
  else none

/-- `btoa`'s base64 encoding of a byte list, with `=` padding. -/
def b64encode : List Nat → List Char
  | [] => []
  | [a] => [b64char (a / 4), b64char (a % 4 * 16), Char.ofNat 61, Char.ofNat 61]
  | [a, b] => [b64char (a / 4), b64char (a % 4 * 16 + b / 16),
               b64char (b % 16 * 4), Char.ofNat 61]
  | a :: b :: c :: rest =>
      b64char (a / 4) :: b64char (a % 4 * 16 + b / 16) ::
      b64char (b % 16 * 4 + c / 64) :: b64char (c % 64) :: b64encode rest

/-- `atob`'s base64 decoding: groups of four alphabet characters, with
padding allowed only in the final group. -/
def b64decode : List Char → Option (List Nat)
  | [] => some []
  | c1 :: c2 :: c3 :: c4 :: rest =>
      (b64charVal c1).bind fun a1 => (b64charVal c2).bind fun a2 =>
        if c3.toNat = 61 then
          if c4.toNat = 61 ∧ rest = [] then some [a1 * 4 + a2 / 16] else none
        else
          (b64charVal c3).bind fun a3 =>
            if c4.toNat = 61 then
              if rest = [] then some [a1 * 4 + a2 / 16, a2 % 16 * 16 + a3 / 4]
              else none
            else
              (b64charVal c4).bind fun a4 =>
                (b64decode rest).map fun tail =>
                  (a1 * 4 + a2 / 16) :: (a2 % 16 * 16 + a3 / 4) ::
                    (a3 % 4 * 64 + a4) :: tail
  | _ => none

/-- `btoa`: Latin-1 text to base64; throws (here: `none`) on a code point
above 255. -/
def btoa (s : String) : Option String :=
  if s.data.all fun c => c.toNat < 256 then
    some (String.mk (b64encode (s.data.map Char.toNat)))
  else none

/-- `atob`: base64 to Latin-1 text; `none` on malformed input. -/
def atob (s : String) : Option String :=
  (b64decode s.data).map fun bytes => String.mk (bytes.map Char.ofNat)

/-! ## Share Codec: board serialization (`App.tsx`, `encodeBoard` / `decodeBoard`) -/

/-- The JSON value `JSON.stringify` sees for a `Subgoal`. -/
def subgoalToJson (s : Subgoal) : Json :=
  Json.obj [("id", .str s.id), ("text", .str s.text), ("done", .bool s.done)]

/-- The JSON value `JSON.stringify` sees for a `Goal`: optional fields are
absent when `undefined`. -/
def goalToJson (g : Goal) : Json :=
  Json.obj ([("id", Json.str g.id), ("text", Json.str g.text),
    ("frequency", Json.str g.frequency.toText),
    ("completed", Json.bool g.completed)] ++
    (match g.sourceGoalId with
     | some sid => [("sourceGoalId", Json.str sid)]
     | none => []) ++
    (match g.subgoals with
     | some subs => [("subgoals", Json.arr (subs.map subgoalToJson))]
     | none => []))

/-- The JSON value `JSON.stringify` sees for a `Board`. -/
def boardToJson (b : Board) : Json :=
  Json.obj [("id", Json.str b.id), ("title", Json.str b.title),
    ("createdAt", Json.str b.createdAt),
    ("goals", Json.arr (b.goals.map goalToJson)),
    ("size", Json.num b.size), ("celebrated", Json.bool b.celebrated)]

/-- `encodeBoard` from `App.tsx`:
`btoa(encodeURIComponent(JSON.stringify(board)))`. `btoa`'s failure case
(`none`) never actually occurs: the percent-encoded payload is ASCII. -/
def encodeBoard (board : Board) : Option String :=
  btoa (encodeURIComponent (jsonStringify (boardToJson board)))

/-- `decodeBoard` from `App.tsx`:
`JSON.parse(decodeURIComponent(atob(encoded)))` with the try/catch
modelled as `Option`; the `as Board` cast performs no validation, so the
result is the parsed JSON value. -/
def decodeBoard (encoded : String) : Option Json :=
  ((atob encoded).bind decodeURIComponent).bind jsonParse

/-! ## Concrete fixtures -/

/-- An empty-text cell that is marked completed. -/
def emptyCompletedGoal : Goal :=
  { id := "e", text := "", frequency := .weekly, completed := true }

/-- A 3×3 board content consisting solely of completed empty tiles. -/
def allEmptyCompleted : List Goal := List.replicate 9 emptyCompletedGoal

/-- A 3×3 board content of completed goals with non-empty text. -/
def allTextCompleted : List Goal :=
  List.replicate 9 { id := "t", text := "goal", frequency := .weekly, completed := true }

/-- A custom-library template whose text collides with a suggested one. -/
def cexCustomTemplate : GoalTemplate :=
  { id := "c1", text := "run", frequency := .weekly }

/-- A suggested template with the same text as `cexCustomTemplate`. -/
def cexSuggestedTemplate : GoalTemplate :=
  { id := "s1", text := "run", frequency := .weekly }

/-- A concrete generation run: one checked custom goal and one checked
suggested goal carrying the same Goal Key, `customOnly = false`, size 3.
The singleton pools make the shuffle outcome deterministic. -/
def cexGeneratedBoard : Board :=
  handleGenerateBoard (fun n => Nat.repr n) "2026-01-01T00:00:00.000Z"
    [cexCustomTemplate] .weekly 3 "My board" false
    [cexCustomTemplate] [cexSuggestedTemplate]

/-- A goal whose single subgoal is done, hence `completed = true`. -/
def subDoneGoal : Goal :=
  { id := "g1", text := "ship", frequency := .weekly, completed := true,
    subgoals := some [{ id := "s1", text := "step", done := true }] }

/-- A board holding `subDoneGoal`; it satisfies the subgoal invariant. -/
def subBoard : Board :=
  { id := "b1", title := "t", createdAt := "2026-01-01", goals := [subDoneGoal],
    size := 1, celebrated := true }

/-- A goal with three subgoals, two of them done. -/
def subPartialGoal : Goal :=
  { id := "g2", text := "train", frequency := .weekly, completed := false,
    subgoals := some [{ id := "s1", text := "a", done := true },
                      { id := "s2", text := "b", done := true },
                      { id := "s3", text := "c", done := false }] }

/-- A board holding `subPartialGoal`. -/
def subPartialBoard : Board :=
  { id := "b2", title := "t", createdAt := "2026-01-01", goals := [subPartialGoal],
    size := 1, celebrated := false }

/-- The spec scenario's invalid import payload:
the JSON value of the text `\x7b"boards": "not-an-array"\x7d`. -/
def cexImportPayload : Json :=
  Json.obj [("boards", Json.str "not-an-array")]

end GoalBingo

namespace GoalBingo

/-! ## Helper lemmas -/

/-- `List.find?` returns the first element satisfying the predicate:
positional characterization. -/
theorem find?_first {α : Type} (p : α → Bool) :
    ∀ (l : List α) (a : α), l.find? p = some a ↔
      ∃ i, l.get? i = some a ∧ p a = true ∧
        ∀ j < i, ∀ b, l.get? j = some b → p b = false := by
  intro l
  induction l with
  | nil => intro a; simp
  | cons h t ih =>
      intro a
      cases hp : p h with
      | true =>
          rw [List.find?_cons_of_pos _ hp]
          constructor
          · rintro ⟨rfl⟩
            exact ⟨0, rfl, hp, fun j hj => absurd hj (Nat.not_lt_zero j)⟩
          · rintro ⟨i, hget, hpa, hmin⟩
            cases i with
            | zero => cases hget; rfl
            | succ k =>
                have := hmin 0 (Nat.succ_pos k) h rfl
                rw [hp] at this
                cases this
      | false =>
          rw [List.find?_cons_of_neg _ (by simp [hp])]
          rw [ih a]
          constructor
          · rintro ⟨i, hget, hpa, hmin⟩
            refine ⟨i + 1, hget, hpa, fun j hj b hb => ?_⟩
            cases j with
            | zero => cases hb; exact hp
            | succ k => exact hmin k (Nat.lt_of_succ_lt_succ hj) b hb
          · rintro ⟨i, hget, hpa, hmin⟩
            cases i with
            | zero =>
                cases hget
                rw [hpa] at hp
                cases hp
            | succ k =>
                exact ⟨k, hget, hpa, fun j hj b hb =>
                  hmin (j + 1) (Nat.succ_lt_succ hj) b hb⟩

/-- `cellCompleted` only looks at the `completed` flags. -/
theorem cellCompleted_eq_map (goals : List Goal) (idx : Nat) :
    cellCompleted goals idx = ((goals.map Goal.completed).get? idx).getD false := by
  simp [cellCompleted, List.get?_eq_getElem?, List.getElem?_map]

/-! ## Theorems for the claims -/

/-- C3: for every size in {3,4,5}, `getBingoLines size` returns exactly
`2*size + 2` lines, each of exactly `size` distinct cell indices in
`[0, size*size)`; the lines are the `size` rows first, then the `size`
columns, then the main diagonal `i*(size+1)` and the anti-diagonal
`(i+1)*(size-1)`. -/
theorem getBingoLines_spec (size : Nat) (h : size = 3 ∨ size = 4 ∨ size = 5) :
    (getBingoLines size).length = 2 * size + 2 ∧
    (∀ line ∈ getBingoLines size,
      line.length = size ∧ line.Nodup ∧ ∀ i ∈ line, i < size * size) ∧
    (∀ r < size, (getBingoLines size).get? r =
      some ((List.range size).map fun c => r * size + c)) ∧
    (∀ c < size, (getBingoLines size).get? (size + c) =
      some ((List.range size).map fun r => r * size + c)) ∧
    (getBingoLines size).get? (2 * size) =
      some ((List.range size).map fun i => i * (size + 1)) ∧
    (getBingoLines size).get? (2 * size + 1) =
      some ((List.range size).map fun i => (i + 1) * (size - 1)) := by
  rcases h with rfl | rfl | rfl <;> decide

/-- Witness for C3 at size 3. -/
theorem getBingoLines_spec_witness : (getBingoLines 3).length = 2 * 3 + 2 :=
  (getBingoLines_spec 3 (Or.inl rfl)).1

/-- C9: `getGoalKey(f, t)` is `f ++ ":" ++ lowercase(trim(t))`; the two
sample texts collide; and any two texts with the same normalized form give
the same key for the same frequency. -/
theorem getGoalKey_contract :
    (∀ f t, getGoalKey f t = f.toText ++ ":" ++ jsToLower (jsTrim t)) ∧
    getGoalKey .weekly "Run 3 miles" = getGoalKey .weekly "  RUN 3 miles  " ∧
    (∀ f s t, jsToLower (jsTrim s) = jsToLower (jsTrim t) →
      getGoalKey f s = getGoalKey f t) := by
  refine ⟨fun f t => rfl, by decide, fun f s t h => ?_⟩
  simp only [getGoalKey, h]

/-- Witness for C9: the normalization hypothesis discharged on concrete
texts differing in case and surrounding whitespace. -/
theorem getGoalKey_contract_witness :
    getGoalKey .weekly "run" = getGoalKey .weekly " RUN " :=
  getGoalKey_contract.2.2 .weekly "run" " RUN " (by decide)

/-- C4: `getBingoLine` returns the first line, in `getBingoLines`
enumeration order, all of whose cell indices hold a completed goal, and
`none` exactly when no line is fully complete. -/
theorem getBingoLine_spec (goals : List Goal) (size : Nat) :
    (∀ idx, cellCompleted goals idx = true ↔
      ∃ g, goals.get? idx = some g ∧ g.completed = true) ∧
    (∀ line, getBingoLine goals size = some line →
      (∀ idx ∈ line, ∃ g, goals.get? idx = some g ∧ g.completed = true) ∧
      ∃ i, (getBingoLines size).get? i = some line ∧
        ∀ j < i, ∀ l, (getBingoLines size).get? j = some l →
          lineComplete goals l = false) ∧
    (∀ i line, (getBingoLines size).get? i = some line →
      lineComplete goals line = true →
      (∀ j < i, ∀ l, (getBingoLines size).get? j = some l →
        lineComplete goals l = false) →
      getBingoLine goals size = some line) ∧
    (getBingoLine goals size = none ↔
      ∀ line ∈ getBingoLines size, lineComplete goals line = false) := by
  have hcell : ∀ idx, cellCompleted goals idx = true ↔
      ∃ g, goals.get? idx = some g ∧ g.completed = true := by
    intro idx
    unfold cellCompleted
    cases hg : goals.get? idx with
    | none => simp
    | some g => simp
  refine ⟨hcell, ?_, ?_, ?_⟩
  · intro line hline
    rw [getBingoLine, find?_first] at hline
    obtain ⟨i, hget, hcomp, hmin⟩ := hline
    refine ⟨?_, i, hget, hmin⟩
    intro idx hidx
    rw [← hcell]
    exact List.all_eq_true.mp hcomp idx hidx
  · intro i line hget hcomp hmin
    rw [getBingoLine, find?_first]
    exact ⟨i, hget, hcomp, hmin⟩
  · rw [getBingoLine, List.find?_eq_none]
    constructor
    · intro h line hline
      have := h line hline
      simpa using this
    · intro h line hline
      simp [h line hline]

/-- Witness for C4: on an empty goal list no line of the 3×3 grid is
complete, hence no winning line. -/
theorem getBingoLine_spec_witness : getBingoLine [] 3 = none :=
  (getBingoLine_spec [] 3).2.2.2.mpr (by decide)

/-- C5 counterexample: a 3×3 board of completed empty tiles; `getBingoLine`
returns the first row even though its cells all have empty text, so a line
containing an empty-text goal IS returned. -/
theorem getBingoLine_empty_text_counterexample :
    getBingoLine allEmptyCompleted 3 = some [0, 1, 2] ∧
    (allEmptyCompleted.get? 0).map Goal.text = some "" := by
  decide

/-- C5 amended: empty-text goals are not excluded from win logic —
`getBingoLine` depends only on the `completed` flags of the goals, never
on their text. -/
theorem getBingoLine_ignores_text (goals goals' : List Goal) (size : Nat)
    (h : goals.map Goal.completed = goals'.map Goal.completed) :
    getBingoLine goals size = getBingoLine goals' size := by
  have hcell : cellCompleted goals = cellCompleted goals' := by
    funext idx
    rw [cellCompleted_eq_map, cellCompleted_eq_map, h]
  unfold getBingoLine lineComplete
  rw [hcell]

/-- Witness for C5's amended theorem: boards of completed empty tiles and
completed titled goals have the same winning line. -/
theorem getBingoLine_ignores_text_witness :
    getBingoLine allEmptyCompleted 3 = getBingoLine allTextCompleted 3 :=
  getBingoLine_ignores_text allEmptyCompleted allTextCompleted 3 (by decide)

/-- C1 (amended): for every checked custom subset, checked suggested subset,
size in {3,4,5}, customOnly flag, title and frequency, and every shuffle
outcome, `handleGenerateBoard` returns a board whose goals list has length
exactly `size*size`, in which every goal is incomplete, every non-empty
goal's text is drawn from the union of the checked pools' texts, and a
suffix of empty-tile goals (empty text, current frequency, incomplete)
pads the list to exactly `size*size` entries. (The claim's further clause
that no two non-empty goals share a Goal Key fails on the code — the
generator performs no key-based deduplication; see
`handleGenerateBoard_dup_key_counterexample`.) -/
theorem handleGenerateBoard_spec (ids : Nat → String) (now : String)
    (customGoals customChecked suggestedChecked shuffledCustom shuffledSuggested :
      List GoalTemplate)
    (generationFrequency : Frequency) (boardSize : Nat) (boardTitle : String)
    (customOnly : Bool) (b : Board)
    (hs : isBoardSize boardSize = true)
    (hc : shuffledCustom.Perm customChecked)
    (hg : shuffledSuggested.Perm suggestedChecked)
    (hcf : ∀ t ∈ customChecked, t.frequency = generationFrequency)
    (hgf : ∀ t ∈ suggestedChecked, t.frequency = generationFrequency)
    (hb : b = handleGenerateBoard ids now customGoals generationFrequency boardSize
      boardTitle customOnly shuffledCustom shuffledSuggested) :
    b.size = boardSize ∧
    b.goals.length = boardSize * boardSize ∧
    b.celebrated = false ∧
    (∀ g ∈ b.goals, g.completed = false ∧ g.frequency = generationFrequency) ∧
    (∀ g ∈ b.goals, g.text ≠ "" →
      g.text ∈ customChecked.map GoalTemplate.text ∨
      g.text ∈ suggestedChecked.map GoalTemplate.text) ∧
    ∃ n ≤ boardSize * boardSize,
      (∀ g ∈ b.goals.take n, ∃ t, (t ∈ customChecked ∨ t ∈ suggestedChecked) ∧
        g.text = t.text) ∧
      ∀ g ∈ b.goals.drop n, g.text = "" ∧ g.frequency = generationFrequency ∧
        g.completed = false := by
  subst hb
  unfold handleGenerateBoard
  rw [show (if isBoardSize boardSize then boardSize
      else defaultBoardSizeByFrequency generationFrequency) = boardSize from by
    rw [hs]; exact if_pos rfl]
  dsimp only
  set tot := boardSize * boardSize with htot
  set sel : List GoalTemplate := shuffledCustom.take tot ++
    (if customOnly = false ∧ (shuffledCustom.take tot).length < tot then
      shuffledSuggested.take (tot - (shuffledCustom.take tot).length)
    else []) with hseldef
  have hselmem : ∀ t ∈ sel, t ∈ customChecked ∨ t ∈ suggestedChecked := by
    intro t ht
    rcases List.mem_append.mp ht with h | h
    · exact Or.inl (hc.mem_iff.mp (List.mem_of_mem_take h))
    · split at h
      · exact Or.inr (hg.mem_iff.mp (List.mem_of_mem_take h))
      · cases h
  have hsellen : sel.length ≤ tot := by
    rw [hseldef]
    rw [List.length_append]
    have h1 := List.length_take_le tot shuffledCustom
    split
    · have h2 := List.length_take_le (tot - (shuffledCustom.take tot).length)
        shuffledSuggested
      omega
    · simp only [List.length_nil]
      omega
  have hselof : ∀ p ∈ sel.enum, p.2 ∈ sel := fun p hp =>
    List.getElem?_mem (List.mem_enum_iff_getElem?.mp hp)
  refine ⟨rfl, ?_, rfl, ?_, ?_, ?_⟩
  · simp only [List.length_append, List.length_map, List.enum_length,
      List.length_range]
    omega
  · intro g hgmem
    rcases List.mem_append.mp hgmem with h | h
    · obtain ⟨p, hp, rfl⟩ := List.mem_map.mp h
      refine ⟨rfl, ?_⟩
      rcases hselmem p.2 (hselof p hp) with ht | ht
      · exact hcf p.2 ht
      · exact hgf p.2 ht
    · obtain ⟨i, hi, rfl⟩ := List.mem_map.mp h
      exact ⟨rfl, rfl⟩
  · intro g hgmem hne
    rcases List.mem_append.mp hgmem with h | h
    · obtain ⟨p, hp, rfl⟩ := List.mem_map.mp h
      rcases hselmem p.2 (hselof p hp) with ht | ht
      · exact Or.inl (List.mem_map.mpr ⟨p.2, ht, rfl⟩)
      · exact Or.inr (List.mem_map.mpr ⟨p.2, ht, rfl⟩)
    · obtain ⟨i, hi, rfl⟩ := List.mem_map.mp h
      exact absurd rfl hne
  · refine ⟨sel.length, hsellen, ?_, ?_⟩
    · intro g hgmem
      have : sel.length = (List.map (fun p =>
          ({ id := ids p.1, text := p.2.text, frequency := p.2.frequency,
             completed := false,
             sourceGoalId := if (customGoals.any fun custom => custom.id == p.2.id) = true
               then some p.2.id else none,
             subgoals := none } : Goal)) sel.enum).length := by
        rw [List.length_map, List.enum_length]
      rw [this, List.take_left] at hgmem
      obtain ⟨p, hp, rfl⟩ := List.mem_map.mp hgmem
      exact ⟨p.2, hselmem p.2 (hselof p hp), rfl⟩
    · intro g hgmem
      have : sel.length = (List.map (fun p =>
          ({ id := ids p.1, text := p.2.text, frequency := p.2.frequency,
             completed := false,
             sourceGoalId := if (customGoals.any fun custom => custom.id == p.2.id) = true
               then some p.2.id else none,
             subgoals := none } : Goal)) sel.enum).length := by
        rw [List.length_map, List.enum_length]
      rw [this, List.drop_left] at hgmem
      obtain ⟨i, hi, rfl⟩ := List.mem_map.mp hgmem
      exact ⟨rfl, rfl, rfl⟩

/-- Witness for C1: a concrete 3×3 generation from empty pools. -/
theorem handleGenerateBoard_spec_witness :
    (handleGenerateBoard (fun n => Nat.repr n) "2026-01-01" [] .weekly 3 "t" true
      [] []).goals.length = 3 * 3 :=
  (handleGenerateBoard_spec (fun n => Nat.repr n) "2026-01-01" [] [] [] [] []
    .weekly 3 "t" true _ rfl (List.Perm.refl _) (List.Perm.refl _)
    (by simp) (by simp) rfl).2.1

/-- C1 counterexample: with a checked custom goal "run" and a checked
suggested goal "run" (both weekly) and `customOnly = false`, the first two
generated goals are non-empty and carry the same Goal Key `weekly:run`. -/
theorem handleGenerateBoard_dup_key_counterexample :
    ((cexGeneratedBoard.goals.get? 0).map fun g =>
      (g.text, getGoalKey g.frequency g.text)) = some ("run", "weekly:run") ∧
    ((cexGeneratedBoard.goals.get? 1).map fun g =>
      (g.text, getGoalKey g.frequency g.text)) = some ("run", "weekly:run") := by
  decide

/-- C6: with `customOnly = true`, every goal of the generated board is an
empty tile or comes from the checked custom pool, and the generated board
does not depend on the suggested pool at all. -/
theorem handleGenerateBoard_customOnly (ids : Nat → String) (now : String)
    (customGoals customChecked shuffledCustom shuffledSuggested shuffledSuggestedAlt :
      List GoalTemplate)
    (generationFrequency : Frequency) (boardSize : Nat) (boardTitle : String)
    (hc : shuffledCustom.Perm customChecked) :
    (∀ g ∈ (handleGenerateBoard ids now customGoals generationFrequency boardSize
        boardTitle true shuffledCustom shuffledSuggested).goals,
      g.text = "" ∨ ∃ t ∈ customChecked, g.text = t.text ∧ g.frequency = t.frequency) ∧
    handleGenerateBoard ids now customGoals generationFrequency boardSize
        boardTitle true shuffledCustom shuffledSuggested =
      handleGenerateBoard ids now customGoals generationFrequency boardSize
        boardTitle true shuffledCustom shuffledSuggestedAlt := by
  have hif : ∀ (n m : Nat) (l : List GoalTemplate),
      (if true = false ∧ n < m then l else []) = [] := by
    intro n m l
    simp
  constructor
  · intro g hgmem
    unfold handleGenerateBoard at hgmem
    dsimp only at hgmem
    rw [hif, List.append_nil] at hgmem
    rcases List.mem_append.mp hgmem with h | h
    · obtain ⟨p, hp, rfl⟩ := List.mem_map.mp h
      have hpm : p.2 ∈ shuffledCustom.take _ :=
        List.getElem?_mem (List.mem_enum_iff_getElem?.mp hp)
      have : p.2 ∈ customChecked := hc.mem_iff.mp (List.mem_of_mem_take hpm)
      exact Or.inr ⟨p.2, this, rfl, rfl⟩
    · obtain ⟨i, hi, rfl⟩ := List.mem_map.mp h
      exact Or.inl rfl
  · unfold handleGenerateBoard
    dsimp only
    rw [hif, hif]

/-- Witness for C6: a concrete custom-only generation ignores the
suggested pool. -/
theorem handleGenerateBoard_customOnly_witness :
    handleGenerateBoard (fun n => Nat.repr n) "2026-01-01" [cexCustomTemplate]
        .weekly 3 "t" true [cexCustomTemplate] [cexSuggestedTemplate] =
      handleGenerateBoard (fun n => Nat.repr n) "2026-01-01" [cexCustomTemplate]
        .weekly 3 "t" true [cexCustomTemplate] [] :=
  (handleGenerateBoard_customOnly (fun n => Nat.repr n) "2026-01-01"
    [cexCustomTemplate] [cexCustomTemplate] [cexCustomTemplate]
    [cexSuggestedTemplate] [] .weekly 3 "t" (List.Perm.refl _)).2

/-- Toggling one goal re-establishes the subgoal invariant for it. -/
theorem toggleGoalEntry_invariant (goalId : String) (g : Goal)
    (h : goalInvariant g = true) :
    goalInvariant (toggleGoalEntry goalId g) = true := by
  unfold toggleGoalEntry
  split
  · exact h
  · cases hsub : g.subgoals with
    | none => simp [goalInvariant, hsub]
    | some subs =>
        cases subs with
        | nil => simp [goalInvariant, hsub]
        | cons a as =>
            simp only [List.length_cons, Nat.succ_sub_one, gt_iff_lt,
              Nat.zero_lt_succ, if_true, goalInvariant]
            cases hall : (a :: as).all Subgoal.done with
            | true => simp [List.all_eq_true] at hall ⊢
            | false =>
                simp only [Bool.not_false, List.all_cons, List.isEmpty_cons,
                  Bool.false_or, List.map_cons]
                simp

/-- C2 (amended): toggling a goal and saving a subgoal checklist preserve
the invariant that a goal with a present non-empty subgoal list has
`completed` equal to the conjunction of its subgoals' `done` flags; after
`handleResetProgress`, however, a goal with a present non-empty subgoal
list satisfies the invariant iff not all of its subgoals are done, because
reset clears `completed` without clearing subgoal `done` flags (see
`resetProgress_invariant_counterexample`). -/
theorem boardInvariant_mutators :
    (∀ goalId b, boardInvariant b = true →
      boardInvariant (toggleGoal goalId b) = true) ∧
    (∀ ids modal b, boardInvariant b = true →
      boardInvariant (handleSaveSubgoals ids modal b) = true) ∧
    (∀ b, ∀ g ∈ (handleResetProgress b).goals, ∀ subs, g.subgoals = some subs →
      subs ≠ [] → (goalInvariant g = true ↔ subs.all Subgoal.done = false)) := by
  refine ⟨?_, ?_, ?_⟩
  · intro goalId b hb
    rw [boardInvariant, List.all_eq_true] at hb ⊢
    intro g hgmem
    obtain ⟨g0, hg0, rfl⟩ := List.mem_map.mp hgmem
    exact toggleGoalEntry_invariant goalId g0 (hb g0 hg0)
  · intro ids modal b hb
    rw [boardInvariant, List.all_eq_true] at hb ⊢
    intro g hgmem
    obtain ⟨g0, hg0, rfl⟩ := List.mem_map.mp hgmem
    split
    · cases hfl : (if (List.filter (fun s => decide ¬s.text = "")
          (List.map (fun s => { s with text := jsTrim s.text }) modal.subgoals)).length ≥ 2
          then List.filter (fun s => decide ¬s.text = "")
            (List.map (fun s => { s with text := jsTrim s.text }) modal.subgoals)
          else [{ id := ids 0, text := "Subgoal 1", done := false },
                { id := ids 1, text := "Subgoal 2", done := false }]) with
      | nil => simp [goalInvariant]
      | cons a as => simp [goalInvariant]
    · exact hb g0 hg0
  · intro b g hgmem subs hsubs hne
    obtain ⟨g0, hg0, rfl⟩ := List.mem_map.mp hgmem
    dsimp only at hsubs ⊢
    rw [goalInvariant]
    cases hg0s : g0.subgoals with
    | none => rw [hg0s] at hsubs; cases hsubs
    | some subs0 =>
        rw [hg0s] at hsubs
        cases hsubs
        cases subs with
        | nil => exact absurd rfl hne
        | cons a as => cases hd : a.done <;> simp [hd]

/-- C2 counterexample: a board satisfying the invariant whose goal has its
single subgoal done; after `handleResetProgress` the invariant fails. -/
theorem resetProgress_invariant_counterexample :
    boardInvariant subBoard = true ∧
    boardInvariant (handleResetProgress subBoard) = false := by
  decide

/-- Witness for C2: toggling the partially-completed fixture preserves the
invariant. -/
theorem boardInvariant_mutators_witness :
    boardInvariant (toggleGoal "g2" subPartialBoard) = true :=
  boardInvariant_mutators.1 "g2" subPartialBoard (by decide)

/-- C10: toggling a goal with a non-empty subgoal list completes it in one
tap when any subgoal is not done (all subgoals become done and
`completed = true`), and clears it when all subgoals are done (all become
not done and `completed = false`). -/
theorem toggleGoal_subgoals_spec (goalId : String) (b : Board) (i : Nat)
    (g : Goal) (subs : List Subgoal)
    (hg : b.goals.get? i = some g) (hid : g.id = goalId)
    (hsubs : g.subgoals = some subs) (hne : subs ≠ []) :
    ∃ g', (toggleGoal goalId b).goals.get? i = some g' ∧
      (subs.all Subgoal.done = false →
        g'.subgoals = some (subs.map fun s => { s with done := true }) ∧
        g'.completed = true) ∧
      (subs.all Subgoal.done = true →
        g'.subgoals = some (subs.map fun s => { s with done := false }) ∧
        g'.completed = false) := by
  refine ⟨toggleGoalEntry goalId g, ?_, ?_, ?_⟩
  · rw [toggleGoal]
    dsimp only
    rw [List.get?_eq_getElem?, List.getElem?_map, ← List.get?_eq_getElem?, hg]
    rfl
  · intro hall
    unfold toggleGoalEntry
    rw [if_neg (by simp [hid]), hsubs]
    cases subs with
    | nil => exact absurd rfl hne
    | cons a as =>
        dsimp only
        rw [if_pos (by simp : (a :: as).length > 0)]
        dsimp only
        rw [hall]
        exact ⟨rfl, rfl⟩
  · intro hall
    unfold toggleGoalEntry
    rw [if_neg (by simp [hid]), hsubs]
    cases subs with
    | nil => exact absurd rfl hne
    | cons a as =>
        dsimp only
        rw [if_pos (by simp : (a :: as).length > 0)]
        dsimp only
        rw [hall]
        exact ⟨rfl, rfl⟩

/-- C8: an import payload whose parsed JSON has no array-valued `boards`
field is rejected before any mutation: the store is exactly unchanged (for
every possible store type and store-replacing callback — so the callback
is never invoked), and the user-visible failure message is shown. -/
theorem import_invalid_shape_rejected (σ : Type) (onImportData : σ → Json → σ)
    (store : σ) (parsed : Json)
    (h : jsIsArray (jsGetField parsed "boards") = false) :
    handleImportFile σ onImportData store (some parsed) =
      { store := store,
        importMessage := some "Import failed. Please use a valid export file.",
        importError := true } := by
  simp [handleImportFile, importPayloadValid, h]

/-- Witness for C8: the spec's `boards: "not-an-array"` payload leaves a
concrete store untouched and reports failure. -/
theorem import_invalid_shape_rejected_witness :
    handleImportFile Nat (fun s _ => s + 1) 0 (some cexImportPayload) =
      { store := 0,
        importMessage := some "Import failed. Please use a valid export file.",
        importError := true } :=
  import_invalid_shape_rejected Nat (fun s _ => s + 1) 0 cexImportPayload
    (by decide)

/-- Witness for C10: the three-subgoal fixture with two done subgoals is
completed, not cleared, by one toggle. -/
theorem toggleGoal_subgoals_spec_witness :
    ∃ g', (toggleGoal "g2" subPartialBoard).goals.get? 0 = some g' ∧
      (([⟨"s1", "a", true⟩, ⟨"s2", "b", true⟩,
         ⟨"s3", "c", false⟩] : List Subgoal).all Subgoal.done = false →
        g'.subgoals = some (([⟨"s1", "a", true⟩, ⟨"s2", "b", true⟩,
          ⟨"s3", "c", false⟩] : List Subgoal).map fun s => { s with done := true }) ∧
        g'.completed = true) ∧
      (([⟨"s1", "a", true⟩, ⟨"s2", "b", true⟩,
         ⟨"s3", "c", false⟩] : List Subgoal).all Subgoal.done = true →
        g'.subgoals = some (([⟨"s1", "a", true⟩, ⟨"s2", "b", true⟩,
          ⟨"s3", "c", false⟩] : List Subgoal).map fun s => { s with done := false }) ∧
        g'.completed = false) :=
  toggleGoal_subgoals_spec "g2" subPartialBoard 0 subPartialGoal
    [⟨"s1", "a", true⟩, ⟨"s2", "b", true⟩, ⟨"s3", "c", false⟩]
    (by decide) rfl rfl (by decide)

/-! ## Share Codec lemmas -/

theorem charToNat_ofNat (n : Nat) (h : n.isValidChar) : (Char.ofNat n).toNat = n := by
  have hlt : n < 4294967296 := by rcases h with h | ⟨h1, h2⟩ <;> omega
  simp only [Char.ofNat, h, dif_pos]
  simp only [Char.ofNatAux, Char.toNat]
  simp [UInt32.toNat, UInt32.ofNat', Fin.ofNat', Nat.mod_eq_of_lt hlt]

theorem isDigit_ofNat (d : Nat) (hd : d < 10) :
    isDigit (Char.ofNat (48 + d)) = true := by
  have hv : (48 + d).isValidChar := Or.inl (by omega)
  simp only [isDigit, charToNat_ofNat _ hv, Bool.and_eq_true, decide_eq_true_eq]
  omega

theorem digitVal_ofNat (d : Nat) (hd : d < 10) :
    digitVal (Char.ofNat (48 + d)) = d := by
  have hv : (48 + d).isValidChar := Or.inl (by omega)
  simp only [digitVal, charToNat_ofNat _ hv]
  omega

theorem natPrint_all_digits (n : Nat) : ∀ c ∈ natPrint n, isDigit c = true := by
  induction n using Nat.strong_induction_on with
  | _ n ih =>
      intro c hc
      rw [natPrint] at hc
      split at hc
      · next h =>
          simp only [List.mem_singleton] at hc
          subst hc
          exact isDigit_ofNat n h
      · next h =>
          rcases List.mem_append.mp hc with h1 | h1
          · exact ih _ (Nat.div_lt_self (by omega) (by omega)) c h1
          · simp only [List.mem_singleton] at h1
            subst h1
            exact isDigit_ofNat (n % 10) (Nat.mod_lt _ (by omega))

theorem natPrint_ne_nil (n : Nat) : natPrint n ≠ [] := by
  rw [natPrint]
  split
  · simp
  · simp

theorem digitsVal_foldl (l : List Char) : ∀ acc : Nat,
    l.foldl (fun a c => a * 10 + digitVal c) acc =
      acc * 10 ^ l.length + digitsVal l := by
  induction l with
  | nil => intro acc; simp [digitsVal]
  | cons c t ih =>
      intro acc
      have h1 : digitsVal (c :: t) = digitVal c * 10 ^ t.length + digitsVal t := by
        show (c :: t).foldl (fun a c => a * 10 + digitVal c) 0 = _
        rw [List.foldl_cons, ih]
        ring_nf
      rw [List.foldl_cons, ih, h1, List.length_cons, pow_succ]
      ring

theorem digitsVal_append (l1 l2 : List Char) :
    digitsVal (l1 ++ l2) = digitsVal l1 * 10 ^ l2.length + digitsVal l2 := by
  show (l1 ++ l2).foldl _ 0 = _
  rw [List.foldl_append, digitsVal_foldl]
  rfl

theorem digitsVal_natPrint (n : Nat) : digitsVal (natPrint n) = n := by
  induction n using Nat.strong_induction_on with
  | _ n ih =>
      rw [natPrint]
      split
      · next h =>
          simp only [digitsVal, List.foldl_cons, List.foldl_nil, Nat.zero_mul,
            Nat.zero_add]
          exact digitVal_ofNat n h
      · next h =>
          rw [digitsVal_append, ih _ (Nat.div_lt_self (by omega) (by omega))]
          have h2 : digitsVal [Char.ofNat (48 + n % 10)] = n % 10 := by
            simp only [digitsVal, List.foldl_cons, List.foldl_nil, Nat.zero_mul,
              Nat.zero_add]
            exact digitVal_ofNat (n % 10) (Nat.mod_lt _ (by omega))
          rw [h2]
          simp only [List.length_singleton, pow_one]
          omega

theorem takeWhile_append_all (p : Char → Bool) (l1 l2 : List Char)
    (h1 : ∀ c ∈ l1, p c = true) (h2 : ∀ c, l2.head? = some c → p c = false) :
    (l1 ++ l2).takeWhile p = l1 ∧ (l1 ++ l2).dropWhile p = l2 := by
  induction l1 with
  | nil =>
      simp only [List.nil_append]
      cases l2 with
      | nil => simp
      | cons c t =>
          have := h2 c rfl
          simp [List.takeWhile_cons, List.dropWhile_cons, this]
  | cons c t ih =>
      have hc : p c = true := h1 c (List.mem_cons_self c t)
      have := ih (fun x hx => h1 x (List.mem_cons_of_mem c hx))
      simp [List.takeWhile_cons, List.dropWhile_cons, hc, this.1, this.2]

theorem parseNum_natPrint (n : Nat) (rest : List Char)
    (hrest : ∀ c, rest.head? = some c → isDigit c = false) :
    parseNum (natPrint n ++ rest) = some (n, rest) := by
  obtain ⟨ht, hd⟩ :=
    takeWhile_append_all isDigit (natPrint n) rest (natPrint_all_digits n) hrest
  rw [parseNum]
  simp only [ht, hd]
  rw [if_neg (by simp [natPrint_ne_nil n])]
  rw [digitsVal_natPrint]

theorem char_eq_ofNat (c : Char) (n : Nat) (hv : n.isValidChar)
    (h : c.toNat = n) : c = Char.ofNat n := by
  have h2 : (Char.ofNat n).toNat = n := charToNat_ofNat n hv
  have : c.toNat = (Char.ofNat n).toNat := by omega
  exact Char.eq_of_val_eq (UInt32.ext this)

theorem char_is_ofNat (c : Char) (h : c.toNat < 55296) :
    c = Char.ofNat c.toNat :=
  char_eq_ofNat c c.toNat (Or.inl h) rfl

theorem psb_quote (rest : List Char) :
    parseStringBody (Char.ofNat 34 :: rest) = some (String.mk [], rest) := by
  rw [parseStringBody.eq_def]
  dsimp only
  rw [if_pos (charToNat_ofNat 34 (Or.inl (by omega)))]

theorem psb_lit (c : Char) (rest : List Char)
    (hc1 : ¬ c.toNat = 34) (hc2 : ¬ c.toNat = 92) :
    parseStringBody (c :: rest) =
      (parseStringBody rest).map fun p => (String.mk (c :: p.1.data), p.2) := by
  rw [parseStringBody.eq_def]
  dsimp only
  rw [if_neg hc1, if_neg hc2]

theorem psb_esc_simple (e d : Char) (rest : List Char)
    (he : ¬ e.toNat = 117) (hd : escDecode e = some d) :
    parseStringBody (Char.ofNat 92 :: e :: rest) =
      (parseStringBody rest).map fun p => (String.mk (d :: p.1.data), p.2) := by
  rw [parseStringBody.eq_def]
  dsimp only
  rw [if_neg (by rw [charToNat_ofNat 92 (Or.inl (by omega))]; omega)]
  rw [if_pos (charToNat_ofNat 92 (Or.inl (by omega)))]
  rw [if_neg he, hd]

theorem psb_u (d1 d2 d3 d4 : Char) (v1 v2 v3 v4 : Nat) (rest : List Char)
    (h1 : hexVal d1 = some v1) (h2 : hexVal d2 = some v2)
    (h3 : hexVal d3 = some v3) (h4 : hexVal d4 = some v4) :
    parseStringBody (Char.ofNat 92 :: Char.ofNat 117 :: d1 :: d2 :: d3 :: d4 :: rest) =
      (parseStringBody rest).map fun p =>
        (String.mk (Char.ofNat (v1 * 4096 + v2 * 256 + v3 * 16 + v4) :: p.1.data), p.2) := by
  rw [parseStringBody.eq_def]
  dsimp only
  rw [if_neg (by rw [charToNat_ofNat 92 (Or.inl (by omega))]; omega)]
  rw [if_pos (charToNat_ofNat 92 (Or.inl (by omega)))]
  rw [if_pos (charToNat_ofNat 117 (Or.inl (by omega)))]
  rw [h1, h2, h3, h4]

theorem hexVal_hexDigitLower (m : Nat) (hm : m < 16) :
    hexVal (hexDigitLower m) = some m := by
  interval_cases m <;> decide

theorem parseStringBody_esc (l : List Char) (rest : List Char) :
    parseStringBody (l.flatMap escChar ++ Char.ofNat 34 :: rest) =
      some (String.mk l, rest) := by
  induction l with
  | nil =>
      simp only [List.flatMap_nil, List.nil_append]
      exact psb_quote rest
  | cons c t ih =>
      rw [List.flatMap_cons, List.append_assoc]
      by_cases h1 : c.toNat = 34
      · have hc : c = Char.ofNat 34 := char_eq_ofNat c 34 (Or.inl (by omega)) h1
        subst hc
        have he : escChar (Char.ofNat 34) = [Char.ofNat 92, Char.ofNat 34] := by decide
        rw [he, List.cons_append, List.cons_append, List.nil_append,
          psb_esc_simple (Char.ofNat 34) (Char.ofNat 34) _ (by decide) (by decide), ih]
        rfl
      by_cases h2 : c.toNat = 92
      · have hc : c = Char.ofNat 92 := char_eq_ofNat c 92 (Or.inl (by omega)) h2
        subst hc
        have he : escChar (Char.ofNat 92) = [Char.ofNat 92, Char.ofNat 92] := by decide
        rw [he, List.cons_append, List.cons_append, List.nil_append,
          psb_esc_simple (Char.ofNat 92) (Char.ofNat 92) _ (by decide) (by decide), ih]
        rfl
      by_cases h3 : c.toNat = 8
      · have hc : c = Char.ofNat 8 := char_eq_ofNat c 8 (Or.inl (by omega)) h3
        subst hc
        have he : escChar (Char.ofNat 8) = [Char.ofNat 92, Char.ofNat 98] := by decide
        rw [he, List.cons_append, List.cons_append, List.nil_append,
          psb_esc_simple (Char.ofNat 98) (Char.ofNat 8) _ (by decide) (by decide), ih]
        rfl
      by_cases h4 : c.toNat = 9
      · have hc : c = Char.ofNat 9 := char_eq_ofNat c 9 (Or.inl (by omega)) h4
        subst hc
        have he : escChar (Char.ofNat 9) = [Char.ofNat 92, Char.ofNat 116] := by decide
        rw [he, List.cons_append, List.cons_append, List.nil_append,
          psb_esc_simple (Char.ofNat 116) (Char.ofNat 9) _ (by decide) (by decide), ih]
        rfl
      by_cases h5 : c.toNat = 10
      · have hc : c = Char.ofNat 10 := char_eq_ofNat c 10 (Or.inl (by omega)) h5
        subst hc
        have he : escChar (Char.ofNat 10) = [Char.ofNat 92, Char.ofNat 110] := by decide
        rw [he, List.cons_append, List.cons_append, List.nil_append,
          psb_esc_simple (Char.ofNat 110) (Char.ofNat 10) _ (by decide) (by decide), ih]
        rfl
      by_cases h6 : c.toNat = 12
      · have hc : c = Char.ofNat 12 := char_eq_ofNat c 12 (Or.inl (by omega)) h6
        subst hc
        have he : escChar (Char.ofNat 12) = [Char.ofNat 92, Char.ofNat 102] := by decide
        rw [he, List.cons_append, List.cons_append, List.nil_append,
          psb_esc_simple (Char.ofNat 102) (Char.ofNat 12) _ (by decide) (by decide), ih]
        rfl
      by_cases h7 : c.toNat = 13
      · have hc : c = Char.ofNat 13 := char_eq_ofNat c 13 (Or.inl (by omega)) h7
        subst hc
        have he : escChar (Char.ofNat 13) = [Char.ofNat 92, Char.ofNat 114] := by decide
        rw [he, List.cons_append, List.cons_append, List.nil_append,
          psb_esc_simple (Char.ofNat 114) (Char.ofNat 13) _ (by decide) (by decide), ih]
        rfl
      by_cases h8 : c.toNat < 32
      · have he : escChar c = [Char.ofNat 92, Char.ofNat 117, Char.ofNat 48, Char.ofNat 48,
            hexDigitLower (c.toNat / 16), hexDigitLower (c.toNat % 16)] := by
          simp only [escChar, if_neg h1, if_neg h2, if_neg h3, if_neg h4, if_neg h5,
            if_neg h6, if_neg h7, if_pos h8]
        rw [he, List.cons_append, List.cons_append, List.cons_append,
          List.cons_append, List.cons_append, List.cons_append, List.nil_append,
          psb_u (Char.ofNat 48) (Char.ofNat 48) (hexDigitLower (c.toNat / 16))
            (hexDigitLower (c.toNat % 16)) 0 0 (c.toNat / 16) (c.toNat % 16)
            _ (by decide) (by decide)
            (hexVal_hexDigitLower _ (by omega))
            (hexVal_hexDigitLower _ (by omega)), ih]
        have hv : (0 * 4096 + 0 * 256 + c.toNat / 16 * 16 + c.toNat % 16)
            = c.toNat := by omega
        rw [hv, ← char_is_ofNat c (by omega)]
        rfl
      · have he : escChar c = [c] := by
          simp only [escChar, if_neg h1, if_neg h2, if_neg h3, if_neg h4, if_neg h5,
            if_neg h6, if_neg h7, if_neg h8]
        rw [he, List.cons_append, List.nil_append, psb_lit c _ h1 h2, ih]
        rfl

theorem skipWs_cons (c : Char) (l : List Char) (h : isJsonWs c = false) :
    skipWs (c :: l) = c :: l := by
  simp [skipWs, List.dropWhile_cons, h]

theorem pv_null (fuel : Nat) (rest : List Char) :
    parseValue (fuel + 1) ('n' :: 'u' :: 'l' :: 'l' :: rest) =
      some (.null, rest) := by
  rw [parseValue.eq_def]
  dsimp only
  rw [skipWs_cons _ _ (by decide)]
  dsimp only
  rw [if_pos (show ('n' : Char).toNat = 110 from rfl)]
  rw [if_pos (by exact ⟨rfl, rfl, rfl⟩)]

theorem pv_true (fuel : Nat) (rest : List Char) :
    parseValue (fuel + 1) ('t' :: 'r' :: 'u' :: 'e' :: rest) =
      some (.bool true, rest) := by
  rw [parseValue.eq_def]
  dsimp only
  rw [skipWs_cons _ _ (by decide)]
  dsimp only
  rw [if_neg (show ¬ ('t' : Char).toNat = 110 by decide)]
  rw [if_pos (show ('t' : Char).toNat = 116 from rfl)]
  rw [if_pos (by exact ⟨rfl, rfl, rfl⟩)]

theorem pv_false (fuel : Nat) (rest : List Char) :
    parseValue (fuel + 1) ('f' :: 'a' :: 'l' :: 's' :: 'e' :: rest) =
      some (.bool false, rest) := by
  rw [parseValue.eq_def]
  dsimp only
  rw [skipWs_cons _ _ (by decide)]
  dsimp only
  rw [if_neg (show ¬ ('f' : Char).toNat = 110 by decide)]
  rw [if_neg (show ¬ ('f' : Char).toNat = 116 by decide)]
  rw [if_pos (show ('f' : Char).toNat = 102 from rfl)]
  rw [if_pos (by exact ⟨rfl, rfl, rfl, rfl⟩)]

theorem pv_str (fuel : Nat) (r : List Char) :
    parseValue (fuel + 1) (Char.ofNat 34 :: r) =
      (parseStringBody r).map fun p => (Json.str p.1, p.2) := by
  rw [parseValue.eq_def]
  dsimp only
  rw [skipWs_cons _ _ (by decide)]
  dsimp only
  rw [if_neg (by decide), if_neg (by decide), if_neg (by decide),
    if_pos (show (Char.ofNat 34).toNat = 34 from rfl)]

theorem pv_arr_empty (fuel : Nat) (rest : List Char) :
    parseValue (fuel + 1) (Char.ofNat 91 :: Char.ofNat 93 :: rest) =
      some (.arr [], rest) := by
  rw [parseValue.eq_def]
  dsimp only
  rw [skipWs_cons _ _ (by decide)]
  dsimp only
  rw [if_neg (by decide), if_neg (by decide), if_neg (by decide),
    if_neg (by decide), if_pos (show (Char.ofNat 91).toNat = 91 from rfl)]
  rw [skipWs_cons _ _ (by decide)]
  dsimp only
  rw [if_pos (show (Char.ofNat 93).toNat = 93 from rfl)]

theorem pv_arr_cons (fuel : Nat) (d : Char) (r2 : List Char)
    (hws : isJsonWs d = false) (hne : ¬ d.toNat = 93) :
    parseValue (fuel + 1) (Char.ofNat 91 :: d :: r2) =
      (parseItems fuel (d :: r2)).map fun p => (Json.arr p.1, p.2) := by
  rw [parseValue.eq_def]
  dsimp only
  rw [skipWs_cons _ _ (by decide)]
  dsimp only
  rw [if_neg (by decide), if_neg (by decide), if_neg (by decide),
    if_neg (by decide), if_pos (show (Char.ofNat 91).toNat = 91 from rfl)]
  rw [skipWs_cons _ _ hws]
  dsimp only
  rw [if_neg hne]

theorem pv_obj_empty (fuel : Nat) (rest : List Char) :
    parseValue (fuel + 1) (Char.ofNat 123 :: Char.ofNat 125 :: rest) =
      some (.obj [], rest) := by
  rw [parseValue.eq_def]
  dsimp only
  rw [skipWs_cons _ _ (by decide)]
  dsimp only
  rw [if_neg (by decide), if_neg (by decide), if_neg (by decide),
    if_neg (by decide), if_neg (by decide),
    if_pos (show (Char.ofNat 123).toNat = 123 from rfl)]
  rw [skipWs_cons _ _ (by decide)]
  dsimp only
  rw [if_pos (show (Char.ofNat 125).toNat = 125 from rfl)]

theorem pv_obj_cons (fuel : Nat) (d : Char) (r2 : List Char)
    (hws : isJsonWs d = false) (hne : ¬ d.toNat = 125) :
    parseValue (fuel + 1) (Char.ofNat 123 :: d :: r2) =
      (parseFields fuel (d :: r2)).map fun p => (Json.obj p.1, p.2) := by
  rw [parseValue.eq_def]
  dsimp only
  rw [skipWs_cons _ _ (by decide)]
  dsimp only
  rw [if_neg (by decide), if_neg (by decide), if_neg (by decide),
    if_neg (by decide), if_neg (by decide),
    if_pos (show (Char.ofNat 123).toNat = 123 from rfl)]
  rw [skipWs_cons _ _ hws]
  dsimp only
  rw [if_neg hne]

theorem pv_num (fuel : Nat) (c : Char) (r : List Char) (hc : isDigit c = true) :
    parseValue (fuel + 1) (c :: r) =
      (parseNum (c :: r)).map fun p => (Json.num p.1, p.2) := by
  have hn : 48 ≤ c.toNat ∧ c.toNat ≤ 57 := by
    simp only [isDigit, Bool.and_eq_true, decide_eq_true_eq] at hc
    exact hc
  rw [parseValue.eq_def]
  dsimp only
  rw [skipWs_cons _ _ (by simp [isJsonWs]; omega)]
  dsimp only
  rw [if_neg (by omega), if_neg (by omega), if_neg (by omega),
    if_neg (by omega), if_neg (by omega), if_neg (by omega), if_pos hc]

theorem jsize_pos (j : Json) : 1 ≤ jsize j := by
  cases j <;> simp only [jsize] <;> omega

theorem jsizeItems_cons_pos (x : Json) (xs : List Json) :
    1 ≤ jsizeItems (x :: xs) := by
  rw [jsizeItems]
  omega

theorem jsizeFields_cons_pos (f : String × Json) (fs : List (String × Json)) :
    1 ≤ jsizeFields (f :: fs) := by
  rw [jsizeFields]
  omega

theorem stringify_head (j : Json) :
    ∃ c cs, stringify j = c :: cs ∧
      (c.toNat = 110 ∨ c.toNat = 116 ∨ c.toNat = 102 ∨ c.toNat = 34 ∨
       c.toNat = 91 ∨ c.toNat = 123 ∨ isDigit c = true) := by
  cases j with
  | null => exact ⟨'n', _, by rw [stringify], Or.inl rfl⟩
  | bool b =>
      cases b
      · exact ⟨'f', _, by rw [stringify], Or.inr (Or.inr (Or.inl rfl))⟩
      · exact ⟨'t', _, by rw [stringify], Or.inr (Or.inl rfl)⟩
  | num n =>
      cases hnp : natPrint n with
      | nil => exact absurd hnp (natPrint_ne_nil n)
      | cons d ds =>
          refine ⟨d, ds, by rw [stringify, hnp], ?_⟩
          refine Or.inr (Or.inr (Or.inr (Or.inr (Or.inr (Or.inr ?_)))))
          exact natPrint_all_digits n d (by rw [hnp]; exact List.mem_cons_self d ds)
  | str s =>
      exact ⟨Char.ofNat 34, escString s ++ [Char.ofNat 34],
        by rw [stringify, List.cons_append], Or.inr (Or.inr (Or.inr (Or.inl rfl)))⟩
  | arr items =>
      cases items with
      | nil =>
          exact ⟨Char.ofNat 91, _, by rw [stringify],
            Or.inr (Or.inr (Or.inr (Or.inr (Or.inl rfl))))⟩
      | cons x xs =>
          exact ⟨Char.ofNat 91, stringify x ++ stringifyItemsRest xs ++ [Char.ofNat 93],
            by rw [stringify, List.cons_append, List.cons_append],
            Or.inr (Or.inr (Or.inr (Or.inr (Or.inl rfl))))⟩
  | obj fields =>
      cases fields with
      | nil =>
          exact ⟨Char.ofNat 123, _, by rw [stringify],
            Or.inr (Or.inr (Or.inr (Or.inr (Or.inr (Or.inl rfl)))))⟩
      | cons f fs =>
          exact ⟨Char.ofNat 123, stringifyField f ++ stringifyFieldsRest fs ++ [Char.ofNat 125],
            by rw [stringify, List.cons_append, List.cons_append],
            Or.inr (Or.inr (Or.inr (Or.inr (Or.inr (Or.inl rfl)))))⟩

theorem head_not_special (c : Char)
    (h : c.toNat = 110 ∨ c.toNat = 116 ∨ c.toNat = 102 ∨ c.toNat = 34 ∨
      c.toNat = 91 ∨ c.toNat = 123 ∨ isDigit c = true) :
    isJsonWs c = false ∧ ¬ c.toNat = 93 ∧ ¬ c.toNat = 125 ∧ ¬ c.toNat = 44 := by
  have hn : c.toNat = 110 ∨ c.toNat = 116 ∨ c.toNat = 102 ∨ c.toNat = 34 ∨
      c.toNat = 91 ∨ c.toNat = 123 ∨ (48 ≤ c.toNat ∧ c.toNat ≤ 57) := by
    rcases h with h | h | h | h | h | h | h <;>
      first
        | omega
        | (simp only [isDigit, Bool.and_eq_true, decide_eq_true_eq] at h
           omega)
  refine ⟨?_, by omega, by omega, by omega⟩
  simp only [isJsonWs, Bool.or_eq_false_iff, decide_eq_false_iff_not]
  omega

theorem parseStringBody_escString (s : String) (rest : List Char) :
    parseStringBody (escString s ++ Char.ofNat 34 :: rest) = some (s, rest) := by
  obtain ⟨sd⟩ := s
  exact parseStringBody_esc sd rest

theorem parse_stringify (fuel : Nat) :
    (∀ j rest, jsize j ≤ fuel →
      (∀ c, rest.head? = some c → isDigit c = false) →
      parseValue fuel (stringify j ++ rest) = some (j, rest)) ∧
    (∀ x xs rest, jsizeItems (x :: xs) ≤ fuel →
      parseItems fuel
        (stringify x ++ (stringifyItemsRest xs ++ (Char.ofNat 93 :: rest))) =
        some (x :: xs, rest)) ∧
    (∀ f fs rest, jsizeFields (f :: fs) ≤ fuel →
      parseFields fuel
        (stringifyField f ++ (stringifyFieldsRest fs ++ (Char.ofNat 125 :: rest))) =
        some (f :: fs, rest)) := by
  induction fuel with
  | zero =>
      refine ⟨?_, ?_, ?_⟩
      · intro j rest hsz hrest
        have := jsize_pos j
        omega
      · intro x xs rest hsz
        have := jsizeItems_cons_pos x xs
        omega
      · intro f fs rest hsz
        have := jsizeFields_cons_pos f fs
        omega
  | succ fuel ih =>
      obtain ⟨hv, hi, hf⟩ := ih
      have hitems_head : ∀ (xs : List Json) (rest : List Char) (c : Char),
          (stringifyItemsRest xs ++ (Char.ofNat 93 :: rest)).head? = some c →
          isDigit c = false := by
        intro xs rest c hc
        cases xs with
        | nil =>
            simp only [stringifyItemsRest, List.nil_append, List.head?_cons] at hc
            cases hc
            decide
        | cons y ys =>
            simp only [stringifyItemsRest, List.cons_append, List.head?_cons] at hc
            cases hc
            decide
      have hfields_head : ∀ (fs : List (String × Json)) (rest : List Char) (c : Char),
          (stringifyFieldsRest fs ++ (Char.ofNat 125 :: rest)).head? = some c →
          isDigit c = false := by
        intro fs rest c hc
        cases fs with
        | nil =>
            simp only [stringifyFieldsRest, List.nil_append, List.head?_cons] at hc
            cases hc
            decide
        | cons g gs =>
            simp only [stringifyFieldsRest, List.cons_append, List.head?_cons] at hc
            cases hc
            decide
      refine ⟨?_, ?_, ?_⟩
      · -- values
        intro j rest hsz hrest
        cases j with
        | null =>
            simp only [stringify, List.cons_append, List.nil_append]
            exact pv_null fuel rest
        | bool b =>
            cases b
            · simp only [stringify, List.cons_append, List.nil_append]
              exact pv_false fuel rest
            · simp only [stringify, List.cons_append, List.nil_append]
              exact pv_true fuel rest
        | num n =>
            simp only [stringify]
            cases hnp : natPrint n with
            | nil => exact absurd hnp (natPrint_ne_nil n)
            | cons d ds =>
                have hd : isDigit d = true :=
                  natPrint_all_digits n d (by rw [hnp]; exact List.mem_cons_self d ds)
                rw [List.cons_append, pv_num fuel d _ hd]
                rw [show d :: (ds ++ rest) = (d :: ds) ++ rest from rfl, ← hnp,
                  parseNum_natPrint n rest hrest]
                rfl
        | str s =>
            simp only [stringify, List.cons_append, List.append_assoc,
              List.singleton_append, List.nil_append]
            rw [pv_str fuel, parseStringBody_escString s rest]
            rfl
        | arr items =>
            cases items with
            | nil =>
                simp only [stringify, List.cons_append, List.nil_append]
                exact pv_arr_empty fuel rest
            | cons x xs =>
                simp only [stringify, List.cons_append, List.append_assoc,
                  List.singleton_append, List.nil_append]
                obtain ⟨c, cs, hx, hh⟩ := stringify_head x
                obtain ⟨hws, h93, h125, h44⟩ := head_not_special c hh
                rw [hx, List.cons_append, pv_arr_cons fuel c _ hws h93,
                  ← List.cons_append, ← hx]
                have hsz2 : jsizeItems (x :: xs) ≤ fuel := by
                  simp only [jsize] at hsz
                  omega
                rw [hi x xs rest hsz2]
                rfl
        | obj fields =>
            cases fields with
            | nil =>
                simp only [stringify, List.cons_append, List.nil_append]
                exact pv_obj_empty fuel rest
            | cons f fs =>
                simp only [stringify, List.cons_append, List.append_assoc,
                  List.singleton_append, List.nil_append]
                obtain ⟨k, v⟩ := f
                have hfh : ∃ cs, stringifyField (k, v) = Char.ofNat 34 :: cs := by
                  refine ⟨escString k ++ Char.ofNat 34 :: Char.ofNat 58 :: stringify v, ?_⟩
                  rw [stringifyField, List.cons_append]
                obtain ⟨cs, hcs⟩ := hfh
                rw [hcs, List.cons_append, pv_obj_cons fuel (Char.ofNat 34) _
                  (by decide) (by decide), ← List.cons_append, ← hcs]
                have hsz2 : jsizeFields ((k, v) :: fs) ≤ fuel := by
                  simp only [jsize] at hsz
                  omega
                rw [hf (k, v) fs rest hsz2]
                rfl
      · -- items
        intro x xs rest hsz
        rw [parseItems.eq_def]
        dsimp only
        have hszx : jsize x ≤ fuel := by
          simp only [jsizeItems] at hsz
          omega
        rw [hv x _ hszx (hitems_head xs rest)]
        simp only [Option.some_bind]
        cases xs with
        | nil =>
            simp only [stringifyItemsRest, List.nil_append]
            rw [skipWs_cons _ _ (by decide)]
            dsimp only
            rw [if_neg (by decide), if_pos (show (Char.ofNat 93).toNat = 93 from rfl)]
        | cons y ys =>
            simp only [stringifyItemsRest, List.cons_append, List.append_assoc]
            rw [skipWs_cons _ _ (by decide)]
            dsimp only
            rw [if_pos (show (Char.ofNat 44).toNat = 44 from rfl)]
            have hsz2 : jsizeItems (y :: ys) ≤ fuel := by
              simp only [jsizeItems] at hsz ⊢
              omega
            rw [hi y ys rest hsz2]
            rfl
      · -- fields
        intro f fs rest hsz
        obtain ⟨k, v⟩ := f
        rw [parseFields.eq_def]
        dsimp only
        rw [show stringifyField (k, v) ++
            (stringifyFieldsRest fs ++ (Char.ofNat 125 :: rest)) =
            Char.ofNat 34 :: (escString k ++ Char.ofNat 34 ::
              (Char.ofNat 58 :: (stringify v ++
                (stringifyFieldsRest fs ++ (Char.ofNat 125 :: rest))))) from by
          rw [stringifyField]
          simp [List.cons_append, List.append_assoc]]
        rw [skipWs_cons _ _ (by decide)]
        dsimp only
        rw [if_pos (show (Char.ofNat 34).toNat = 34 from rfl)]
        rw [parseStringBody_escString k]
        simp only [Option.some_bind]
        rw [skipWs_cons _ _ (by decide)]
        dsimp only
        rw [if_pos (show (Char.ofNat 58).toNat = 58 from rfl)]
        have hszv : jsize v ≤ fuel := by
          simp only [jsizeFields] at hsz
          omega
        rw [hv v _ hszv (hfields_head fs rest)]
        simp only [Option.some_bind]
        cases fs with
        | nil =>
            simp only [stringifyFieldsRest, List.nil_append]
            rw [skipWs_cons _ _ (by decide)]
            dsimp only
            rw [if_neg (by decide), if_pos (show (Char.ofNat 125).toNat = 125 from rfl)]
        | cons g gs =>
            simp only [stringifyFieldsRest, List.cons_append, List.append_assoc]
            rw [skipWs_cons _ _ (by decide)]
            dsimp only
            rw [if_pos (show (Char.ofNat 44).toNat = 44 from rfl)]
            have hsz2 : jsizeFields (g :: gs) ≤ fuel := by
              simp only [jsizeFields] at hsz ⊢
              omega
            rw [hf g gs rest hsz2]
            rfl

theorem jsize_le_stringify_length (fuel : Nat) :
    (∀ j, jsize j ≤ fuel → jsize j ≤ (stringify j).length) ∧
    (∀ x xs, jsizeItems (x :: xs) ≤ fuel →
      jsizeItems (x :: xs) ≤
        (stringify x).length + (stringifyItemsRest xs).length + 1) ∧
    (∀ f fs, jsizeFields (f :: fs) ≤ fuel →
      jsizeFields (f :: fs) ≤
        (stringifyField f).length + (stringifyFieldsRest fs).length + 1) := by
  induction fuel with
  | zero =>
      refine ⟨?_, ?_, ?_⟩
      · intro j hsz
        have := jsize_pos j
        omega
      · intro x xs hsz
        have := jsizeItems_cons_pos x xs
        omega
      · intro f fs hsz
        have := jsizeFields_cons_pos f fs
        omega
  | succ fuel ih =>
      obtain ⟨hv, hi, hf⟩ := ih
      refine ⟨?_, ?_, ?_⟩
      · intro j hsz
        cases j with
        | null => simp [stringify, jsize]
        | bool b => cases b <;> simp [stringify, jsize]
        | num n =>
            have h1 : 1 ≤ (natPrint n).length := by
              cases hnp : natPrint n with
              | nil => exact absurd hnp (natPrint_ne_nil n)
              | cons d ds => simp
            simp only [stringify, jsize]
            omega
        | str s =>
            simp only [stringify, jsize, List.length_append, List.length_cons]
            omega
        | arr items =>
            cases items with
            | nil => simp [stringify, jsize, jsizeItems]
            | cons x xs =>
                have h2 : jsizeItems (x :: xs) ≤ fuel := by
                  simp only [jsize] at hsz
                  omega
                have := hi x xs h2
                simp only [stringify, jsize, List.cons_append, List.length_cons,
                  List.length_append, List.length_singleton]
                omega
        | obj fields =>
            cases fields with
            | nil => simp [stringify, jsize, jsizeFields]
            | cons f fs =>
                have h2 : jsizeFields (f :: fs) ≤ fuel := by
                  simp only [jsize] at hsz
                  omega
                have := hf f fs h2
                simp only [stringify, jsize, List.cons_append, List.length_cons,
                  List.length_append, List.length_singleton]
                omega
      · intro x xs hsz
        have hx : jsize x ≤ fuel := by
          simp only [jsizeItems] at hsz
          omega
        have h1 := hv x hx
        cases xs with
        | nil =>
            simp only [jsizeItems, stringifyItemsRest, List.length_nil]
            omega
        | cons y ys =>
            have h2 : jsizeItems (y :: ys) ≤ fuel := by
              simp only [jsizeItems] at hsz ⊢
              omega
            have := hi y ys h2
            simp only [jsizeItems] at *
            simp only [stringifyItemsRest, List.cons_append, List.length_cons,
              List.length_append]
            omega
      · intro f fs hsz
        obtain ⟨k, v⟩ := f
        have hx : jsize v ≤ fuel := by
          simp only [jsizeFields] at hsz
          omega
        have h1 := hv v hx
        cases fs with
        | nil =>
            simp only [jsizeFields, stringifyFieldsRest, List.length_nil,
              stringifyField, List.cons_append, List.length_cons, List.length_append]
            omega
        | cons g gs =>
            have h2 : jsizeFields (g :: gs) ≤ fuel := by
              simp only [jsizeFields] at hsz ⊢
              omega
            have := hf g gs h2
            simp only [jsizeFields] at *
            simp only [stringifyFieldsRest, stringifyField, List.cons_append,
              List.length_cons, List.length_append]
            omega

theorem jsonParse_stringify (j : Json) : jsonParse (jsonStringify j) = some j := by
  have hbound : jsize j ≤ (stringify j).length :=
    (jsize_le_stringify_length (jsize j)).1 j le_rfl
  have hlen : (jsonStringify j).length = (stringify j).length := rfl
  rw [jsonParse, hlen]
  have hparse := (parse_stringify ((stringify j).length + 1)).1 j []
    (by omega) (by intro c hc; cases hc)
  rw [List.append_nil] at hparse
  rw [show (jsonStringify j).data = stringify j from rfl, hparse]
  rfl

theorem char_eq_ofNat_toNat (c : Char) : c = Char.ofNat c.toNat :=
  char_eq_ofNat c c.toNat c.valid rfl

theorem char_toNat_lt (c : Char) : c.toNat < 1114112 := by
  show c.val.toNat < 1114112
  rcases c.valid with h | ⟨h1, h2⟩ <;> omega

theorem hexVal_hexDigitUpper (m : Nat) (hm : m < 16) :
    hexVal (hexDigitUpper m) = some m := by
  interval_cases m <;> decide

theorem readEscByte_percentByte (b : Nat) (rest : List Char) (hb : b < 256) :
    readEscByte (percentByte b ++ rest) = some (b, rest) := by
  rw [percentByte, List.cons_append, List.cons_append, List.singleton_append,
    readEscByte]
  rw [if_pos (show (Char.ofNat 37).toNat = 37 from rfl)]
  rw [hexVal_hexDigitUpper _ (by omega), hexVal_hexDigitUpper _ (by omega)]
  simp only [Option.some_bind]
  rw [show b / 16 * 16 + b % 16 = b from by omega]

theorem pdl_lit (fuel : Nat) (c : Char) (rest : List Char) (h : ¬ c.toNat = 37) :
    percentDecodeLoop (fuel + 1) (c :: rest) =
      (percentDecodeLoop fuel rest).map fun l => c :: l := by
  rw [percentDecodeLoop]
  rw [if_neg h]

theorem percentByte_cons (b : Nat) (rest : List Char) :
    percentByte b ++ rest =
      Char.ofNat 37 :: hexDigitUpper (b / 16) :: hexDigitUpper (b % 16) :: rest := by
  rw [percentByte, List.cons_append, List.cons_append, List.singleton_append]

theorem de_esc1 (n : Nat) (rest : List Char) (h : n < 128) :
    decodeEscape (percentByte n ++ rest) = some (Char.ofNat n, rest) := by
  rw [decodeEscape, readEscByte_percentByte n rest (by omega)]
  simp only [Option.some_bind]
  rw [if_pos h]

theorem de_esc2 (b1 b2 : Nat) (rest : List Char)
    (hb1 : 192 ≤ b1 ∧ b1 < 224) (hb2 : 128 ≤ b2 ∧ b2 < 192) :
    decodeEscape (percentByte b1 ++ (percentByte b2 ++ rest)) =
      some (Char.ofNat ((b1 - 192) * 64 + (b2 - 128)), rest) := by
  rw [decodeEscape, readEscByte_percentByte b1 _ (by omega)]
  simp only [Option.some_bind]
  rw [if_neg (by omega), if_neg (by omega), if_pos (by omega)]
  rw [readEscByte_percentByte b2 _ (by omega)]
  simp only [Option.some_bind]
  rw [if_pos (by omega)]

theorem de_esc3 (b1 b2 b3 : Nat) (rest : List Char)
    (hb1 : 224 ≤ b1 ∧ b1 < 240) (hb2 : 128 ≤ b2 ∧ b2 < 192)
    (hb3 : 128 ≤ b3 ∧ b3 < 192) :
    decodeEscape (percentByte b1 ++ (percentByte b2 ++ (percentByte b3 ++ rest))) =
      some (Char.ofNat ((b1 - 224) * 4096 + (b2 - 128) * 64 + (b3 - 128)), rest) := by
  rw [decodeEscape, readEscByte_percentByte b1 _ (by omega)]
  simp only [Option.some_bind]
  rw [if_neg (by omega), if_neg (by omega), if_neg (by omega), if_pos (by omega)]
  rw [readEscByte_percentByte b2 _ (by omega)]
  simp only [Option.some_bind]
  rw [readEscByte_percentByte b3 _ (by omega)]
  simp only [Option.some_bind]
  rw [if_pos (by omega)]

theorem de_esc4 (b1 b2 b3 b4 : Nat) (rest : List Char)
    (hb1 : 240 ≤ b1 ∧ b1 < 248) (hb2 : 128 ≤ b2 ∧ b2 < 192)
    (hb3 : 128 ≤ b3 ∧ b3 < 192) (hb4 : 128 ≤ b4 ∧ b4 < 192) :
    decodeEscape
      (percentByte b1 ++ (percentByte b2 ++ (percentByte b3 ++ (percentByte b4 ++ rest)))) =
      some (Char.ofNat ((b1 - 240) * 262144 + (b2 - 128) * 4096 +
        (b3 - 128) * 64 + (b4 - 128)), rest) := by
  rw [decodeEscape, readEscByte_percentByte b1 _ (by omega)]
  simp only [Option.some_bind]
  rw [if_neg (by omega), if_neg (by omega), if_neg (by omega), if_neg (by omega),
    if_pos (by omega)]
  rw [readEscByte_percentByte b2 _ (by omega)]
  simp only [Option.some_bind]
  rw [readEscByte_percentByte b3 _ (by omega)]
  simp only [Option.some_bind]
  rw [readEscByte_percentByte b4 _ (by omega)]
  simp only [Option.some_bind]
  rw [if_pos (by omega)]

theorem pdl_esc (fuel : Nat) (c : Char) (rest rest2 : List Char) (d : Char)
    (hc : c.toNat = 37) (hde : decodeEscape (c :: rest) = some (d, rest2)) :
    percentDecodeLoop (fuel + 1) (c :: rest) =
      (percentDecodeLoop fuel rest2).map fun l => d :: l := by
  rw [percentDecodeLoop]
  rw [if_pos hc, hde]
  rfl

theorem encodeURIComponent_eq (s : String) :
    encodeURIComponent s = String.mk (s.data.flatMap encChar) := rfl

theorem isUnreserved_not_percent (c : Char) (h : isUnreserved c = true) :
    ¬ c.toNat = 37 := by
  simp only [isUnreserved, Bool.or_eq_true, Bool.and_eq_true, decide_eq_true_eq,
    beq_iff_eq] at h
  omega

theorem percentDecodeLoop_encChar (l : List Char) : ∀ fuel, l.length ≤ fuel →
    percentDecodeLoop fuel (l.flatMap encChar) = some l := by
  induction l with
  | nil =>
      intro fuel hf
      rw [List.flatMap_nil]
      cases fuel <;> rfl
  | cons c t ih =>
      intro fuel hf
      rw [List.length_cons] at hf
      cases fuel with
      | zero => omega
      | succ f =>
          have hlt : t.length ≤ f := by omega
          rw [List.flatMap_cons]
          by_cases hu : isUnreserved c
          · rw [show encChar c = [c] from by rw [encChar, if_pos hu],
              List.singleton_append,
              pdl_lit f c _ (isUnreserved_not_percent c hu), ih f hlt]
            rfl
          · rw [show encChar c = (utf8Bytes c).flatMap percentByte from by
              rw [encChar, if_neg hu]]
            have hval := char_toNat_lt c
            by_cases h1 : c.toNat < 128
            · rw [show utf8Bytes c = [c.toNat] from by rw [utf8Bytes, if_pos h1]]
              simp only [List.flatMap_cons, List.flatMap_nil, List.append_nil]
              rw [percentByte_cons,
                pdl_esc f _ _ _ _ (show (Char.ofNat 37).toNat = 37 from rfl)
                  (by rw [← percentByte_cons]; exact de_esc1 c.toNat _ h1),
                ih f hlt, ← char_eq_ofNat_toNat c]
              rfl
            · by_cases h2 : c.toNat < 2048
              · rw [show utf8Bytes c = [192 + c.toNat / 64, 128 + c.toNat % 64] from by
                  rw [utf8Bytes, if_neg h1, if_pos h2]]
                simp only [List.flatMap_cons, List.flatMap_nil, List.append_nil,
                  List.append_assoc]
                rw [percentByte_cons,
                  pdl_esc f _ _ _ _ (show (Char.ofNat 37).toNat = 37 from rfl)
                    (by rw [← percentByte_cons]
                        exact de_esc2 _ _ _ (by omega) (by omega)),
                  ih f hlt]
                rw [show (192 + c.toNat / 64 - 192) * 64 + (128 + c.toNat % 64 - 128)
                    = c.toNat from by omega, ← char_eq_ofNat_toNat c]
                rfl
              · by_cases h3 : c.toNat < 65536
                · rw [show utf8Bytes c = [224 + c.toNat / 4096,
                      128 + c.toNat / 64 % 64, 128 + c.toNat % 64] from by
                    rw [utf8Bytes, if_neg h1, if_neg h2, if_pos h3]]
                  simp only [List.flatMap_cons, List.flatMap_nil, List.append_nil,
                    List.append_assoc]
                  rw [percentByte_cons,
                    pdl_esc f _ _ _ _ (show (Char.ofNat 37).toNat = 37 from rfl)
                      (by rw [← percentByte_cons]
                          exact de_esc3 _ _ _ _ (by omega) (by omega) (by omega)),
                    ih f hlt]
                  rw [show (224 + c.toNat / 4096 - 224) * 4096 +
                      (128 + c.toNat / 64 % 64 - 128) * 64 + (128 + c.toNat % 64 - 128)
                      = c.toNat from by omega, ← char_eq_ofNat_toNat c]
                  rfl
                · rw [show utf8Bytes c = [240 + c.toNat / 262144,
                      128 + c.toNat / 4096 % 64, 128 + c.toNat / 64 % 64,
                      128 + c.toNat % 64] from by
                    rw [utf8Bytes, if_neg h1, if_neg h2, if_neg h3]]
                  simp only [List.flatMap_cons, List.flatMap_nil, List.append_nil,
                    List.append_assoc]
                  rw [percentByte_cons,
                    pdl_esc f _ _ _ _ (show (Char.ofNat 37).toNat = 37 from rfl)
                      (by rw [← percentByte_cons]
                          exact de_esc4 _ _ _ _ _ (by omega) (by omega) (by omega)
                            (by omega)),
                    ih f hlt]
                  rw [show (240 + c.toNat / 262144 - 240) * 262144 +
                      (128 + c.toNat / 4096 % 64 - 128) * 4096 +
                      (128 + c.toNat / 64 % 64 - 128) * 64 + (128 + c.toNat % 64 - 128)
                      = c.toNat from by omega, ← char_eq_ofNat_toNat c]
                  rfl

theorem encChar_length_pos (c : Char) : 1 ≤ (encChar c).length := by
  rw [encChar]
  by_cases hu : isUnreserved c
  · rw [if_pos hu]
    simp
  · rw [if_neg hu]
    have hval := char_toNat_lt c
    by_cases h1 : c.toNat < 128
    · rw [show utf8Bytes c = [c.toNat] from by rw [utf8Bytes, if_pos h1]]
      simp [percentByte]
    · by_cases h2 : c.toNat < 2048
      · rw [show utf8Bytes c = [192 + c.toNat / 64, 128 + c.toNat % 64] from by
          rw [utf8Bytes, if_neg h1, if_pos h2]]
        simp [percentByte]
      · by_cases h3 : c.toNat < 65536
        · rw [show utf8Bytes c = [224 + c.toNat / 4096, 128 + c.toNat / 64 % 64,
              128 + c.toNat % 64] from by rw [utf8Bytes, if_neg h1, if_neg h2, if_pos h3]]
          simp [percentByte]
        · rw [show utf8Bytes c = [240 + c.toNat / 262144, 128 + c.toNat / 4096 % 64,
              128 + c.toNat / 64 % 64, 128 + c.toNat % 64] from by
            rw [utf8Bytes, if_neg h1, if_neg h2, if_neg h3]]
          simp [percentByte]

theorem length_le_flatMap_encChar (l : List Char) :
    l.length ≤ (l.flatMap encChar).length := by
  induction l with
  | nil => simp
  | cons c t ih =>
      rw [List.flatMap_cons, List.length_append, List.length_cons]
      have := encChar_length_pos c
      omega

theorem decodeURIComponent_encodeURIComponent (s : String) :
    decodeURIComponent (encodeURIComponent s) = some s := by
  obtain ⟨sd⟩ := s
  rw [encodeURIComponent_eq, decodeURIComponent]
  rw [show (String.mk ((String.mk sd).data.flatMap encChar)).length
      = ((String.mk sd).data.flatMap encChar).length from rfl]
  rw [show (String.mk ((String.mk sd).data.flatMap encChar)).data
      = (String.mk sd).data.flatMap encChar from rfl]
  rw [show (String.mk sd).data = sd from rfl]
  rw [percentDecodeLoop_encChar sd _ (length_le_flatMap_encChar sd)]
  rfl

theorem b64charVal_b64char : ∀ n < 64, b64charVal (b64char n) = some n := by
  decide

theorem b64char_ne_pad : ∀ n < 64, ¬ (b64char n).toNat = 61 := by
  decide

theorem b64decode_encode : ∀ (bytes : List Nat), (∀ b ∈ bytes, b < 256) →
    b64decode (b64encode bytes) = some bytes := by
  intro bytes
  induction bytes using b64encode.induct with
  | case1 =>
      intro _
      rfl
  | case2 a =>
      intro hb
      have ha : a < 256 := hb a (by simp)
      rw [b64encode, b64decode]
      rw [b64charVal_b64char _ (by omega), b64charVal_b64char _ (by omega)]
      simp only [Option.some_bind]
      rw [if_pos (show (Char.ofNat 61).toNat = 61 from rfl)]
      rw [if_pos (show (Char.ofNat 61).toNat = 61 ∧ True from ⟨rfl, trivial⟩)]
      rw [show a / 4 * 4 + a % 4 * 16 / 16 = a from by omega]
  | case3 a b =>
      intro hb
      have ha : a < 256 := hb a (by simp)
      have hbb : b < 256 := hb b (by simp)
      rw [b64encode, b64decode]
      rw [b64charVal_b64char _ (by omega), b64charVal_b64char _ (by omega)]
      simp only [Option.some_bind]
      rw [if_neg (b64char_ne_pad _ (by omega))]
      rw [b64charVal_b64char _ (by omega)]
      simp only [Option.some_bind]
      rw [if_pos (show (Char.ofNat 61).toNat = 61 from rfl)]
      simp only [if_true]
      rw [show a / 4 * 4 + (a % 4 * 16 + b / 16) / 16 = a from by omega]
      rw [show (a % 4 * 16 + b / 16) % 16 * 16 + b % 16 * 4 / 4 = b from by omega]
  | case4 a b c rest ih =>
      intro hb
      have ha : a < 256 := hb a (by simp)
      have hbb : b < 256 := hb b (by simp)
      have hc : c < 256 := hb c (by simp)
      have hrest : ∀ x ∈ rest, x < 256 := fun x hx => hb x (by simp [hx])
      rw [b64encode, b64decode]
      rw [b64charVal_b64char _ (by omega), b64charVal_b64char _ (by omega)]
      simp only [Option.some_bind]
      rw [if_neg (b64char_ne_pad _ (by omega))]
      rw [b64charVal_b64char _ (by omega)]
      simp only [Option.some_bind]
      rw [if_neg (b64char_ne_pad _ (by omega))]
      rw [b64charVal_b64char _ (by omega)]
      simp only [Option.some_bind]
      rw [ih hrest]
      rw [show a / 4 * 4 + (a % 4 * 16 + b / 16) / 16 = a from by omega]
      rw [show (a % 4 * 16 + b / 16) % 16 * 16 + (b % 16 * 4 + c / 64) / 4 = b from by
        omega]
      rw [show (b % 16 * 4 + c / 64) % 4 * 64 + c % 64 = c from by omega]
      rfl

theorem atob_btoa (s : String) (h : ∀ c ∈ s.data, c.toNat < 256) :
    ∃ e, btoa s = some e ∧ atob e = some s := by
  obtain ⟨sd⟩ := s
  rw [btoa, if_pos (by
    rw [List.all_eq_true]
    intro c hc
    simpa using h c hc)]
  refine ⟨_, rfl, ?_⟩
  rw [atob]
  rw [show (String.mk (b64encode ((String.mk sd).data.map Char.toNat))).data
      = b64encode (sd.map Char.toNat) from rfl]
  rw [b64decode_encode _ (by
    intro b hb
    obtain ⟨c, hc, rfl⟩ := List.mem_map.mp hb
    exact h c hc)]
  simp only [Option.map_some', List.map_map]
  have hmap : sd.map (Char.ofNat ∘ Char.toNat) = sd := by
    have : ∀ c ∈ sd, (Char.ofNat ∘ Char.toNat) c = id c := by
      intro c _
      exact (char_eq_ofNat_toNat c).symm
    rw [List.map_congr_left this, List.map_id]
  rw [hmap]

theorem hexDigitUpper_lt (m : Nat) (hm : m < 16) : (hexDigitUpper m).toNat < 256 := by
  rw [hexDigitUpper]
  split
  · rw [charToNat_ofNat _ (Or.inl (by omega))]
    omega
  · rw [charToNat_ofNat _ (Or.inl (by omega))]
    omega

theorem encodeURIComponent_ascii (s : String) :
    ∀ c ∈ (encodeURIComponent s).data, c.toNat < 256 := by
  intro c hc
  rw [encodeURIComponent_eq] at hc
  rw [show (String.mk (s.data.flatMap encChar)).data = s.data.flatMap encChar
    from rfl] at hc
  obtain ⟨d, hd, hcd⟩ := List.mem_flatMap.mp hc
  rw [encChar] at hcd
  by_cases hu : isUnreserved d
  · rw [if_pos hu] at hcd
    simp only [List.mem_singleton] at hcd
    subst hcd
    simp only [isUnreserved, Bool.or_eq_true, Bool.and_eq_true, decide_eq_true_eq,
      beq_iff_eq] at hu
    omega
  · rw [if_neg hu] at hcd
    obtain ⟨b, hbmem, hcb⟩ := List.mem_flatMap.mp hcd
    have hb : b < 256 := by
      have hval := char_toNat_lt d
      rw [utf8Bytes] at hbmem
      split at hbmem
      · simp only [List.mem_singleton] at hbmem
        omega
      · split at hbmem
        · simp only [List.mem_cons, List.mem_singleton, List.not_mem_nil,
            or_false] at hbmem
          rcases hbmem with rfl | rfl <;> omega
        · split at hbmem
          · simp only [List.mem_cons, List.mem_singleton, List.not_mem_nil,
              or_false] at hbmem
            rcases hbmem with rfl | rfl | rfl <;> omega
          · simp only [List.mem_cons, List.mem_singleton, List.not_mem_nil,
              or_false] at hbmem
            rcases hbmem with rfl | rfl | rfl | rfl <;> omega
    rw [percentByte] at hcb
    simp only [List.mem_cons, List.mem_singleton, List.not_mem_nil, or_false] at hcb
    rcases hcb with rfl | rfl | rfl
    · decide
    · exact hexDigitUpper_lt _ (by omega)
    · exact hexDigitUpper_lt _ (by omega)

end GoalBingo
namespace GoalBingo

theorem freq_toText_inj (f g : Frequency) (h : f.toText = g.toText) : f = g := by
  cases f <;> cases g <;> simp_all [Frequency.toText]

theorem subgoalToJson_inj (s t : Subgoal) (h : subgoalToJson s = subgoalToJson t) :
    s = t := by
  cases s
  cases t
  simp only [subgoalToJson, Json.obj.injEq, List.cons.injEq, Prod.mk.injEq,
    Json.str.injEq, Json.bool.injEq, and_true, true_and] at h
  simp_all

theorem goalToJson_inj (s t : Goal) (h : goalToJson s = goalToJson t) : s = t := by
  cases s with
  | mk sid stext sfreq scomp ssrc ssubs =>
  cases t with
  | mk tid ttext tfreq tcomp tsrc tsubs =>
  simp only [goalToJson, Json.obj.injEq, List.cons_append, List.nil_append,
    List.cons.injEq, Prod.mk.injEq, Json.str.injEq, Json.bool.injEq, true_and] at h
  obtain ⟨hid, htext, hfreq, hcomp, htail⟩ := h
  have hfreq2 := freq_toText_inj _ _ hfreq
  clear hfreq
  subst hid htext hcomp hfreq2
  have hmaps : ∀ (u v : List Subgoal),
      List.map subgoalToJson u = List.map subgoalToJson v ↔ u = v := by
    intro u v
    constructor
    · intro h
      exact List.map_injective_iff.mpr (fun a b hab => subgoalToJson_inj a b hab) h
    · intro h
      rw [h]
  rcases ssrc with _ | sv <;> rcases tsrc with _ | tv <;>
    rcases ssubs with _ | sl <;> rcases tsubs with _ | tl <;>
    first
      | rfl
      | simp_all

end GoalBingo
namespace GoalBingo

theorem boardToJson_inj (a b : Board) (h : boardToJson a = boardToJson b) :
    a = b := by
  have hmaps : ∀ (u v : List Goal),
      List.map goalToJson u = List.map goalToJson v ↔ u = v := by
    intro u v
    constructor
    · intro h2
      exact List.map_injective_iff.mpr (fun x y hxy => goalToJson_inj x y hxy) h2
    · intro h2
      rw [h2]
  cases a
  cases b
  simp only [boardToJson, Json.obj.injEq, List.cons.injEq, Prod.mk.injEq,
    Json.str.injEq, Json.bool.injEq, Json.num.injEq, Json.arr.injEq,
    true_and, and_true] at h
  simp_all

/-- C7: share-codec round trip. `decodeBoard ∘ encodeBoard` recovers
exactly the serialized form of the board (hence the board itself, by
injectivity of the serialization), and `decodeBoard` propagates a failure
of any stage (base64, percent-decoding, JSON parsing) as `none`. -/
theorem decodeBoard_encodeBoard (b : Board) :
    (∃ e, encodeBoard b = some e ∧ decodeBoard e = some (boardToJson b)) ∧
    (∀ b2 : Board, boardToJson b2 = boardToJson b → b2 = b) ∧
    (∀ s, atob s = none → decodeBoard s = none) ∧
    (∀ s t, atob s = some t → decodeURIComponent t = none → decodeBoard s = none) ∧
    (∀ s t u, atob s = some t → decodeURIComponent t = some u →
      jsonParse u = none → decodeBoard s = none) := by
  refine ⟨?_, ?_, ?_, ?_, ?_⟩
  · obtain ⟨e, henc, hdec⟩ :=
      atob_btoa (encodeURIComponent (jsonStringify (boardToJson b)))
        (encodeURIComponent_ascii _)
    refine ⟨e, henc, ?_⟩
    rw [decodeBoard, hdec]
    simp only [Option.some_bind]
    rw [decodeURIComponent_encodeURIComponent]
    simp only [Option.some_bind]
    exact jsonParse_stringify (boardToJson b)
  · intro b2 h
    exact boardToJson_inj b2 b h
  · intro s h
    rw [decodeBoard, h]
    rfl
  · intro s t h1 h2
    rw [decodeBoard, h1]
    simp only [Option.some_bind]
    rw [h2]
    rfl
  · intro s t u h1 h2 h3
    rw [decodeBoard, h1]
    simp only [Option.some_bind]
    rw [h2]
    simp only [Option.some_bind]
    rw [h3]

/-- Witness for C7 at a concrete board, and a concrete malformed input
rejected by the base64 stage. -/
theorem decodeBoard_encodeBoard_witness :
    (∃ e, encodeBoard subBoard = some e ∧
      decodeBoard e = some (boardToJson subBoard)) ∧
    decodeBoard "!" = none :=
  ⟨(decodeBoard_encodeBoard subBoard).1,
   (decodeBoard_encodeBoard subBoard).2.2.1 "!" (by decide)⟩

end GoalBingo
